import Mathlib

/-!
Verification development for the SimAI / ASTRA-SIM simulation core.

This file gives a shallow embedding, in Lean 4, of the parts of the
repository that the checked properties talk about:

* the Workload finite-state machine
  (Workload::iterate_hybrid_parallel_Transformer_fwd_in_bckwd and
  Workload::iterate_data_parallel, from src/docs/Workload_FSM_Documentation.md);
* the stream scheduler counters
  (Sys::SchedulerUnit, from src/docs/Sys_Documentation.md);
* the serialized pending-send machinery
  (Sys::sim_send / Sys::handleEvent(PacketSent), from src/docs/Sys_Documentation.md);
* dimension splitting (Sys::break_dimension, from src/docs/Sys_Documentation.md);
* inactive-collective handling
  (Layer::issue_forward_pass_comm, from src/docs/Layer_Class_Documentation.md);
* pcap frame synthesis (WritePacketToPcap, from
  src/astra-sim-alibabacloud/astra-sim/network_frontend/ns3/pcap-sniffer.cc).

Machine integers of the source are modelled as Nat (sizes, counters) and
Int (the signed layer index, which the source decrements through -1).
Mutation becomes explicit state passing, event scheduling becomes an
explicit action list, and the network / event kernel becomes an
environment of boolean completion oracles.
-/

namespace SimAI

/-- Scheduling policy passed to Layer::issue_*_comm (enum SchedulingPolicy). -/
inductive SchedulingPolicy
  | None
  | LIFO
  | FIFO
  | HIGHEST
deriving DecidableEq, Repr

/-- Collective barrier kind (enum CollectiveBarrier). -/
inductive CollectiveBarrier
  | Blocking
  | Non_Blocking
deriving DecidableEq, Repr

/-- FSM states of Workload (enum LoopState). -/
inductive LoopState
  | Forward_Pass
  | Input_Gradient
  | Weight_Gradient
  | Forward_In_BackPass
  | Wait_For_Sim_Finish
deriving DecidableEq, Repr

/-- Per-layer data read by the FSM: compute cycle counts, collective byte
counts and the two checkpointing flags, as parsed by
Workload::initialize_workload.  Only the fields the FSM branches on are kept;
`fwd_pass_comm_size` is mutable in the source (the 4096-byte floor writes it
back), so layers live inside the workload state. -/
structure Layer where
  fwd_pass_compute : Nat
  fwd_pass_comm_size : Nat
  input_grad_compute : Nat
  input_grad_comm_size : Nat
  weight_grad_compute : Nat
  weight_grad_comm_size : Nat
  is_checkpoint : Bool
  needs_fwd_in_bckwd_initiation : Bool
deriving DecidableEq, Repr

/-- Mutable state of the Workload FSM (fields of class Workload). -/
structure Workload where
  layers : List Layer
  current_state : LoopState
  index : Int
  pass_counter : Nat
  counter : Nat
  delay_loaded : Bool
  collective_issued : Bool
  checkpoint_initiated : Bool
deriving DecidableEq, Repr

/-- Observable effects of one FSM invocation: events registered on the
kernel and collectives issued through the Layer.  Each issue action records
the layer index, the scheduling policy, the barrier and the byte count that
the source passes to Layer::issue_*_comm. -/
inductive WAction
  | register_general
  | workload_wait (cycles : Nat)
  | issue_fwd_comm (layer : Nat) (policy : SchedulingPolicy)
      (barrier : CollectiveBarrier) (bytes : Nat)
  | issue_ig_comm (layer : Nat) (policy : SchedulingPolicy)
      (barrier : CollectiveBarrier) (bytes : Nat)
  | issue_wg_comm (layer : Nat) (policy : SchedulingPolicy)
      (barrier : CollectiveBarrier) (bytes : Nat)
  | log_fwd_in_bckwd (startLayer target : Nat)
deriving DecidableEq, Repr

/-- Completion oracles supplied by the rest of the system: per layer index,
whether is_weight_grad_comm_finished_blocking respectively
is_input_grad_comm_finished_blocking would return true on this invocation. -/
structure WEnv where
  wg_comm_finished : Nat → Bool
  ig_comm_finished : Nat → Bool

/-- Result of one FSM invocation.  `assert_violation` models a failure of the
entry assertions assert(index >= 0 && index < SIZE); `oob_read` models an
out-of-bounds access to layers[] (undefined behavior in the C++ source). -/
inductive WOutcome
  | ok (w : Workload) (acts : List WAction)
  | assert_violation
  | oob_read
deriving DecidableEq, Repr

/-- Whether layers[i] exists and has is_checkpoint set. -/
def checkpointAt (layers : List Layer) (i : Nat) : Bool :=
  ((layers.get? i).map Layer.is_checkpoint).getD false

/-- Whether layers[i] exists and has needs_fwd_in_bckwd_initiation set. -/
def needsAt (layers : List Layer) (i : Nat) : Bool :=
  ((layers.get? i).map Layer.needs_fwd_in_bckwd_initiation).getD false

/-- Forward-pass byte count of layers[i] (0 when out of range). -/
def fwdSizeAt (layers : List Layer) (i : Nat) : Nat :=
  ((layers.get? i).map Layer.fwd_pass_comm_size).getD 0

/-- Forward-pass compute cycles of layers[i] (0 when out of range). -/
def fwdComputeAt (layers : List Layer) (i : Nat) : Nat :=
  ((layers.get? i).map Layer.fwd_pass_compute).getD 0

/-- The backward checkpoint scan `while (!layers[index--]->is_checkpoint);`
followed by `index++`: starting at layer t it returns the greatest index
c <= t whose layer has is_checkpoint set.  When no such layer exists the
C++ loop dereferences layers[-1]; that case is `none` here and the caller
maps it to `WOutcome.oob_read`. -/
def scan_checkpoint (layers : List Layer) : Nat → Option Nat
  | 0 => if checkpointAt layers 0 then some 0 else none
  | t + 1 =>
      if checkpointAt layers (t + 1) then some (t + 1)
      else scan_checkpoint layers t

/-- One invocation of Workload::iterate_hybrid_parallel_Transformer_fwd_in_bckwd
(the per-node FSM for HYBRID_TRANSFORMER_FWD_IN_BCKWD), translated from the
code blocks of src/docs/Workload_FSM_Documentation.md.  Each early `return`
of the source becomes a `.ok` with the actions emitted so far; passing
`counter` by reference into try_register_event resets it to zero, which is
why the wait branch clears the counter.  The flag resets on leaving a state
(delay_loaded, collective_issued) follow the Forward_Pass and Input_Gradient
blocks, which show them explicitly; the documentation elides them in the
Weight_Gradient epilogue. -/
def fwd_in_bckwd_step (env : WEnv) (w : Workload) : WOutcome :=
  let SIZE : Int := w.layers.length
  if ¬ (0 ≤ w.index ∧ w.index < SIZE) then .assert_violation else
  match w.layers.get? w.index.toNat with
  | Option.none => .assert_violation
  | Option.some L =>
    let i : Nat := w.index.toNat
    match w.current_state with
    | .Forward_Pass =>
        if ¬ env.wg_comm_finished i then .ok w [] else
        let cnt := if ¬ w.delay_loaded then L.fwd_pass_compute else w.counter
        let w := { w with counter := cnt, delay_loaded := true }
        if w.counter > 0 then
          .ok { w with counter := 0 } [.workload_wait cnt]
        else if ¬ w.collective_issued then
          let sz :=
            if L.fwd_pass_comm_size < 4096 ∧ L.fwd_pass_comm_size > 0 then 4096
            else L.fwd_pass_comm_size
          let layers := w.layers.set i { L with fwd_pass_comm_size := sz }
          .ok { w with collective_issued := true, layers := layers }
            [.issue_fwd_comm i SchedulingPolicy.None .Blocking sz]
        else
          let w := { w with index := w.index + 1,
                            delay_loaded := false, collective_issued := false }
          let w :=
            if w.index ≥ SIZE then
              { w with current_state := .Input_Gradient, index := w.index - 1 }
            else w
          .ok w [.register_general]
    | .Weight_Gradient =>
        let cnt := if ¬ w.delay_loaded then L.weight_grad_compute else w.counter
        let w := { w with counter := cnt, delay_loaded := true }
        if w.counter > 0 then
          .ok { w with counter := 0 } [.workload_wait cnt]
        else
          let issued :=
            if ¬ w.collective_issued then
              [WAction.issue_wg_comm i .FIFO .Non_Blocking L.weight_grad_comm_size]
            else []
          let w := { w with collective_issued := true }
          if ¬ env.ig_comm_finished i then .ok w issued else
          let w := { w with index := w.index - 1 }
          if w.index = -1 then
            .ok { w with index := 0, pass_counter := w.pass_counter + 1,
                         current_state := .Forward_Pass,
                         delay_loaded := false, collective_issued := false }
              (issued ++ [.register_general])
          else
            .ok { w with current_state := .Input_Gradient,
                         delay_loaded := false, collective_issued := false }
              (issued ++ [.register_general])
    | .Input_Gradient =>
        if L.needs_fwd_in_bckwd_initiation ∧ ¬ w.checkpoint_initiated then
          match scan_checkpoint w.layers i with
          | Option.none => .oob_read
          | Option.some c =>
              .ok { w with index := (c : Int),
                           current_state := .Forward_In_BackPass,
                           checkpoint_initiated := true }
                [.register_general, .log_fwd_in_bckwd c i]
        else
        let cnt := if ¬ w.delay_loaded then L.input_grad_compute else w.counter
        let w := { w with counter := cnt, delay_loaded := true }
        if w.counter > 0 then
          .ok { w with counter := 0 } [.workload_wait cnt]
        else if ¬ w.collective_issued then
          .ok { w with collective_issued := true }
            [.issue_ig_comm i .LIFO .Blocking L.input_grad_comm_size]
        else
          .ok { w with checkpoint_initiated := false, collective_issued := false,
                       delay_loaded := false, current_state := .Weight_Gradient }
            [.register_general]
    | .Forward_In_BackPass =>
        if ¬ env.wg_comm_finished i then .ok w [] else
        let cnt := if ¬ w.delay_loaded then L.fwd_pass_compute else w.counter
        let w := { w with counter := cnt, delay_loaded := true }
        if w.counter > 0 then
          .ok { w with counter := 0 } [.workload_wait cnt]
        else if ¬ w.collective_issued then
          .ok { w with collective_issued := true }
            [.issue_fwd_comm i SchedulingPolicy.None .Blocking L.fwd_pass_comm_size]
        else
          let w := { w with index := w.index + 1,
                            delay_loaded := false, collective_issued := false }
          match w.layers.get? w.index.toNat with
          | Option.none => .oob_read
          | Option.some L2 =>
              let w :=
                if L2.needs_fwd_in_bckwd_initiation then
                  { w with current_state := .Input_Gradient }
                else w
              .ok w [.register_general]
    | .Wait_For_Sim_Finish => .ok w []

/-- One invocation of Workload::iterate_data_parallel (pure data
parallelism), translated from src/docs/Workload_FSM_Documentation.md.
Forward_Pass has no collective; Weight_Gradient issues
issue_weight_grad_comm(SchedulingPolicy::None, CollectiveBarrier::Non_Blocking)
and then either closes the pass (index == 0) or moves to Input_Gradient;
Input_Gradient only computes, decrements the index and returns to
Weight_Gradient. -/
def data_parallel_step (env : WEnv) (w : Workload) : WOutcome :=
  let SIZE : Int := w.layers.length
  if ¬ (0 ≤ w.index ∧ w.index < SIZE) then .assert_violation else
  match w.layers.get? w.index.toNat with
  | Option.none => .assert_violation
  | Option.some L =>
    let i : Nat := w.index.toNat
    match w.current_state with
    | .Forward_Pass =>
        if ¬ env.wg_comm_finished i then .ok w [] else
        let cnt := if ¬ w.delay_loaded then L.fwd_pass_compute else w.counter
        let w := { w with counter := cnt, delay_loaded := true }
        if w.counter > 0 then
          .ok { w with counter := 0 } [.workload_wait cnt]
        else
          let w := { w with index := w.index + 1, delay_loaded := false }
          let w :=
            if w.index ≥ SIZE then
              { w with current_state := .Weight_Gradient, index := w.index - 1 }
            else w
          .ok w [.register_general]
    | .Weight_Gradient =>
        let cnt := if ¬ w.delay_loaded then L.weight_grad_compute else w.counter
        let w := { w with counter := cnt, delay_loaded := true }
        if w.counter > 0 then
          .ok { w with counter := 0 } [.workload_wait cnt]
        else
          let issued :=
            [WAction.issue_wg_comm i SchedulingPolicy.None .Non_Blocking
              L.weight_grad_comm_size]
          if w.index = (0 : Int) then
            .ok { w with pass_counter := w.pass_counter + 1,
                         current_state := .Forward_Pass, delay_loaded := false }
              (issued ++ [.register_general])
          else
            .ok { w with current_state := .Input_Gradient, delay_loaded := false }
              (issued ++ [.register_general])
    | .Input_Gradient =>
        let cnt := if ¬ w.delay_loaded then L.input_grad_compute else w.counter
        let w := { w with counter := cnt, delay_loaded := true }
        if w.counter > 0 then
          .ok { w with counter := 0 } [.workload_wait cnt]
        else
          .ok { w with index := w.index - 1, current_state := .Weight_Gradient,
                       delay_loaded := false }
            [.register_general]
    | _ => .ok w []

/-- Run the Transformer fwd-in-bckwd FSM for a given number of invocations,
collecting the emitted actions; `none` when an assertion fails or an
out-of-bounds layer access occurs along the way. -/
def run_fsm (env : WEnv) : Nat → Workload → Option (Workload × List WAction)
  | 0, w => some (w, [])
  | n + 1, w =>
      match fwd_in_bckwd_step env w with
      | .ok w1 acts => (run_fsm env n w1).map (fun p => (p.1, acts ++ p.2))
      | _ => none

/-- Layer indices of the forward-pass collectives contained in an action
list, in emission order. -/
def fwd_issued_layers (acts : List WAction) : List Nat :=
  acts.filterMap (fun a =>
    match a with
    | .issue_fwd_comm l _ _ _ => some l
    | _ => none)

/-! ## Stream scheduler (Sys::SchedulerUnit, src/docs/Sys_Documentation.md)

The scheduler state keeps, per dimension `d < n`: the number of streams
currently sitting in the active queue of `d` (`queue_len`), of which the
first `running_streams d` have been initialized (are running), plus the
cumulative chunk counter.  Globally it keeps the length of the ready list,
`first_phase_streams` and `total_running_streams`.  Streams enter a queue
only through Sys::schedule / Sys::proceed_to_next_vnet_baseline, which the
transition relation below reflects. -/

/-- Counter state of one node's SchedulerUnit together with the queue and
ready-list bookkeeping of its Sys.  `n` is the number of dimensions. -/
structure SchedState (n : Nat) where
  running_streams : Fin n → Nat
  queue_len : Fin n → Nat
  total_active_chunks : Fin n → Nat
  ready_list : Nat
  first_phase_streams : Nat
  total_running_streams : Nat

/-- The initialization loop shared by notify_stream_added and
notify_stream_removed: place the stream pointer after the already
initialized head streams and call init() on further head streams while
`running_streams[d] < queue_threshold` and the queue has streams left.
Under `running_streams d <= queue_len d` this closed form equals the loop
result. -/
def init_head (qt : Nat) (s : SchedState n) (d : Fin n) : SchedState n :=
  { s with running_streams :=
      (Function.update s.running_streams d
        (max (s.running_streams d) (min (s.queue_len d) qt))) }

/-- SchedulerUnit::notify_stream_added(vnet): bump the per-dimension chunk
counter, then initialize head streams up to the queue threshold.  The
caller (proceed_to_next_vnet_baseline) has already inserted the stream into
the queue of `d`. -/
def notify_stream_added (qt : Nat) (s : SchedState n) (d : Fin n) : SchedState n :=
  init_head qt
    { s with total_active_chunks :=
        Function.update s.total_active_chunks d (s.total_active_chunks d + 1) } d

/-- Promotion of one stream out of the ready list into the active queue of
its first phase (one iteration of Sys::schedule): the stream leaves the
ready list, enters the queue of dimension `d`, the global counters grow and
the scheduler initializes head streams of `d`. -/
def promote_one (qt : Nat) (s : SchedState n) (d : Fin n) : SchedState n :=
  notify_stream_added qt
    { s with ready_list := s.ready_list - 1,
             first_phase_streams := s.first_phase_streams + 1,
             total_running_streams := s.total_running_streams + 1,
             queue_len := (Function.update s.queue_len d (s.queue_len d + 1)) } d

/-- Sys::schedule promoting a batch of streams from the head of the ready
list; `ds` lists the first-phase dimension of each promoted stream. -/
def sched_schedule (qt : Nat) (s : SchedState n) (ds : List (Fin n)) : SchedState n :=
  ds.foldl (promote_one qt) s

/-- SchedulerUnit::notify_stream_removed(vnet): decrement
`running_streams[vnet]`, possibly call Sys::schedule for pending ready-list
streams (the promoted batch `ds` is empty when the gate fails), then
initialize further head streams of `vnet` up to the threshold. -/
def notify_stream_removed (qt : Nat) (s : SchedState n) (d : Fin n)
    (ds : List (Fin n)) : SchedState n :=
  let s := { s with running_streams :=
      (Function.update s.running_streams d (s.running_streams d - 1)) }
  init_head qt (sched_schedule qt s ds) d

/-- Sys::proceed_to_next_vnet_baseline when the stream still has phases to
go: the stream leaves the queue of `d`, enters the queue of `dNext`, and the
two scheduler notifications run.  `wasFirst` tells whether the completed
phase was the stream's first one (then first_phase_streams drops). -/
def sched_advance (qt : Nat) (s : SchedState n) (d dNext : Fin n)
    (wasFirst : Bool) (ds : List (Fin n)) : SchedState n :=
  let s := { s with
      queue_len := Function.update s.queue_len d (s.queue_len d - 1),
      first_phase_streams :=
        if wasFirst then s.first_phase_streams - 1 else s.first_phase_streams }
  let s := { s with queue_len :=
      Function.update s.queue_len dNext (s.queue_len dNext + 1) }
  notify_stream_added qt (notify_stream_removed qt s d ds) dNext

/-- Sys::proceed_to_next_vnet_baseline when the stream has completed its
last phase: the stream leaves the queue of `d`, `total_running_streams`
drops, and notify_stream_removed runs for `d`. -/
def sched_finish (qt : Nat) (s : SchedState n) (d : Fin n)
    (wasFirst : Bool) (ds : List (Fin n)) : SchedState n :=
  let s := { s with
      queue_len := Function.update s.queue_len d (s.queue_len d - 1),
      total_running_streams := s.total_running_streams - 1,
      first_phase_streams :=
        if wasFirst then s.first_phase_streams - 1 else s.first_phase_streams }
  notify_stream_removed qt s d ds

/-- Scheduler with empty queues and zero counters (node construction). -/
def sched_init (n : Nat) : SchedState n :=
  ⟨fun _ => 0, fun _ => 0, fun _ => 0, 0, 0, 0⟩

/-- One observable scheduler event.  Every batch `ds` promoted through
Sys::schedule is bounded by the admission gate of
notify_stream_added_into_ready_list / notify_stream_removed:
at most the ready-list length and at most
`max_running_streams - total_running_streams` streams are promoted
(the relation keeps exactly the gate conditions the invariant needs; the
ready-list-threshold part of the gate only makes the promoted batch
smaller). -/
inductive SchedStep (qt mrs : Nat) : SchedState n → SchedState n → Prop
  | new_stream (s : SchedState n) :
      SchedStep qt mrs s { s with ready_list := s.ready_list + 1 }
  | ready_promote (s : SchedState n) (ds : List (Fin n))
      (h1 : ds.length ≤ s.ready_list)
      (h2 : s.total_running_streams + ds.length ≤ mrs) :
      SchedStep qt mrs s (sched_schedule qt s ds)
  | advance (s : SchedState n) (d dNext : Fin n) (wasFirst : Bool)
      (ds : List (Fin n))
      (hrun : 1 ≤ s.running_streams d) (hq : 1 ≤ s.queue_len d)
      (h1 : ds.length ≤ s.ready_list)
      (h2 : s.total_running_streams + ds.length ≤ mrs) :
      SchedStep qt mrs s (sched_advance qt s d dNext wasFirst ds)
  | finish (s : SchedState n) (d : Fin n) (wasFirst : Bool)
      (ds : List (Fin n))
      (hrun : 1 ≤ s.running_streams d) (hq : 1 ≤ s.queue_len d)
      (h1 : ds.length ≤ s.ready_list)
      (h2 : s.total_running_streams - 1 + ds.length ≤ mrs) :
      SchedStep qt mrs s (sched_finish qt s d wasFirst ds)

/-- Scheduler states reachable from node construction. -/
inductive SchedReachable (qt mrs : Nat) : SchedState n → Prop
  | init : SchedReachable qt mrs (sched_init n)
  | step {s s2 : SchedState n} :
      SchedReachable qt mrs s → SchedStep qt mrs s s2 → SchedReachable qt mrs s2

/-- The inductive scheduler invariant: initialized streams are a prefix of
their queue and at most the threshold; all queued streams are admitted
streams; admitted streams respect the global cap. -/
def SchedInv (qt mrs : Nat) (s : SchedState n) : Prop :=
  (∀ d, s.running_streams d ≤ qt) ∧
  (∀ d, s.running_streams d ≤ s.queue_len d) ∧
  (∑ d, s.queue_len d) ≤ s.total_running_streams ∧
  s.total_running_streams ≤ mrs

/-! ## Serialized sends (Sys::sim_send / Sys::handleEvent(PacketSent)) -/

/-- Per-node send serialization state: the busy map
`is_there_pending_sends`, the queues `pending_sends` (both keyed by
`(dst, tag)`), plus a ghost count of sends forwarded to the network backend
and not yet completed.  Message payloads are abstracted to Nat ids. -/
structure SendState where
  is_there_pending_sends : Nat × Nat → Bool
  pending_sends : Nat × Nat → List Nat
  backend_inflight : Nat × Nat → Nat

/-- Calls reaching the network backend. -/
inductive NetAction
  | backend_send (dst tag msg : Nat)
  | backend_recv (src tag msg : Nat)
  | schedule_event
deriving DecidableEq, Repr

/-- Sys::sim_send: with zero delay and no pending send on `(dst, tag)` the
channel is marked busy and the message goes to NI->sim_send at once;
otherwise the send is appended to the pending queue of that key. -/
def sim_send (s : SendState) (delay dst tag msg : Nat) :
    SendState × List NetAction :=
  if delay = 0 ∧ ¬ s.is_there_pending_sends (dst, tag) then
    ({ s with
        is_there_pending_sends :=
          Function.update s.is_there_pending_sends (dst, tag) true,
        backend_inflight :=
          Function.update s.backend_inflight (dst, tag)
            (s.backend_inflight (dst, tag) + 1) },
     [.backend_send dst tag msg])
  else
    ({ s with pending_sends :=
        (Function.update s.pending_sends (dst, tag)
          (s.pending_sends (dst, tag) ++ [msg])) },
     [])

/-- Sys::handleEvent on PacketSent(dst, tag): the completed send leaves the
backend; if the key has pending sends the head is popped and forwarded,
otherwise the channel is marked free. -/
def handle_packet_sent (s : SendState) (dst tag : Nat) :
    SendState × List NetAction :=
  let s := { s with backend_inflight :=
      (Function.update s.backend_inflight (dst, tag)
        (s.backend_inflight (dst, tag) - 1)) }
  match s.pending_sends (dst, tag) with
  | [] =>
      ({ s with is_there_pending_sends :=
          (Function.update s.is_there_pending_sends (dst, tag) false) },
       [])
  | m :: rest =>
      ({ s with
          pending_sends := Function.update s.pending_sends (dst, tag) rest,
          backend_inflight :=
            Function.update s.backend_inflight (dst, tag)
              (s.backend_inflight (dst, tag) + 1) },
       [.backend_send dst tag m])

/-- Sys::sim_recv: receives are delegated to the backend at once (or after
an explicit delay event); they never touch the send serialization state. -/
def sim_recv (s : SendState) (delay src tag msg : Nat) :
    SendState × List NetAction :=
  (s, if delay = 0 then [.backend_recv src tag msg] else [.schedule_event])

/-- Node construction: no busy channel, no pending send, empty backend. -/
def send_init : SendState :=
  ⟨fun _ => false, fun _ => [], fun _ => 0⟩

/-- Send states reachable through sim_send, PacketSent completions (which
the backend only reports for a send it holds) and sim_recv. -/
inductive SendReachable : SendState → Prop
  | init : SendReachable send_init
  | send {s : SendState} (delay dst tag msg : Nat) :
      SendReachable s → SendReachable (sim_send s delay dst tag msg).1
  | sent {s : SendState} (dst tag : Nat) :
      SendReachable s → 1 ≤ s.backend_inflight (dst, tag) →
      SendReachable (handle_packet_sent s dst tag).1
  | recv {s : SendState} (delay src tag msg : Nat) :
      SendReachable s → SendReachable (sim_recv s delay src tag msg).1

/-- The linking invariant of the send serializer: the backend holds exactly
one send on a key marked busy and none on a free key. -/
def SendInv (s : SendState) : Prop :=
  ∀ k, s.backend_inflight k
    = (if s.is_there_pending_sends k then 1 else 0)

/-! ## Dimension splitting (Sys::break_dimension) -/

/-- The dimension-search loop of Sys::break_dimension: walk the physical
dimensions accumulating `all_npus`; at the first dimension where
`all_npus * physical_dims[dim]` exceeds the target, split it into
`first_subdim = target / all_npus` and
`second_subdim = dim_size / first_subdim`. -/
def break_dims_from (target : Nat) : Nat → List Nat → List Nat
  | _, [] => []
  | all_npus, d :: rest =>
      if target < all_npus * d then
        (target / all_npus) :: (d / (target / all_npus)) :: rest
      else
        d :: break_dims_from target (all_npus * d) rest

/-- Physical dimension vector after Sys::break_dimension(target). -/
def break_dimension (dims : List Nat) (target : Nat) : List Nat :=
  break_dims_from target 1 dims

/-! ## Inactive collectives (Layer::issue_forward_pass_comm) -/

/-- Participation of one topology dimension in a collective: the flag from
involved_dimensions together with the dimension size. -/
structure DimPart where
  involved : Bool
  size : Nat
deriving DecidableEq, Repr

/-- Modelled from the spec: whether Sys::generate_collective (whose body is
not under src/) returns a DataSet with `active` set.  The spec states that
phase generation skips a dimension whose size is 1 or which is not in
`involved_dims`, that a zero-byte message yields an inactive batch, and
that a batch with no participating dimension is inactive with zero-cost
immediate completion. -/
def collective_active (bytes : Nat) (dims : List DimPart) : Bool :=
  decide (0 < bytes) && dims.any (fun d => d.involved && decide (1 < d.size))

/-- The slice of Layer state that issue_forward_pass_comm touches:
the outstanding-batch ids of fwd_pass_datasets, the collective counter,
the stored barrier, and the communication parameters. -/
structure LayerIssueState where
  fwd_pass_comm_size : Nat
  fwd_pass_comm_involved_dimensions : List DimPart
  fwd_pass_datasets : List Nat
  collective_counter : Nat
  fwd_barrier : CollectiveBarrier
deriving DecidableEq, Repr

/-- Effects of Layer::issue_forward_pass_comm. -/
inductive LAction
  | log_inactive
  | resume_workload
deriving DecidableEq, Repr

/-- Layer::issue_forward_pass_comm from src/docs/Layer_Class_Documentation.md:
record the barrier, bump collective_counter, generate the collective; when
the returned DataSet is not active, undo the counter, delete the DataSet
(so no entry reaches fwd_pass_datasets) and, under a Blocking barrier,
resume the workload immediately; otherwise store the DataSet id in
fwd_pass_datasets and register the completion notifier. -/
def issue_forward_pass_comm (l : LayerIssueState) (newId : Nat)
    (barrier : CollectiveBarrier) : LayerIssueState × List LAction :=
  let l := { l with fwd_barrier := barrier,
                    collective_counter := l.collective_counter + 1 }
  if ¬ collective_active l.fwd_pass_comm_size l.fwd_pass_comm_involved_dimensions then
    ({ l with collective_counter := l.collective_counter - 1 },
     if barrier = .Blocking then [.log_inactive, .resume_workload]
     else [.log_inactive])
  else
    ({ l with fwd_pass_datasets := l.fwd_pass_datasets ++ [newId] }, [])

/-! ## Pcap frame synthesis (WritePacketToPcap, pcap-sniffer.cc)

Bytes are modelled as Nat values below 256; the arithmetic mirrors the
uint8_t / uint16_t operations of the source ((x << 8) | y on bytes is
x * 256 + y, x >> 4 is x / 16, x & 0x0F is x % 16).  htons is the byte swap
of the little-endian build hosts. -/

/-- The isEthernet lambda of WritePacketToPcap: at least 14 bytes and a
recognized ethertype at offset 12. -/
def is_ethernet (buf : List Nat) : Bool :=
  if buf.length < 14 then false
  else
    let ethertype := buf.getD 12 0 * 256 + buf.getD 13 0
    ethertype == 0x0800 || ethertype == 0x86DD ||
      ethertype == 0x0806 || ethertype == 0x88B5

/-- The isIPv4 lambda of WritePacketToPcap: at least 20 bytes past the
offset, version nibble 4 and IHL at least 5. -/
def is_ipv4 (buf : List Nat) (off : Nat) : Bool :=
  if buf.length < off + 20 then false
  else
    let vihl := buf.getD off 0
    vihl / 16 == 4 && 5 ≤ vihl % 16

/-- The carry-folding loop of ComputeIpv4HeaderChecksum:
while (sum >> 16) sum = (sum & 0xFFFF) + (sum >> 16). -/
def fold_carries (sum : Nat) : Nat :=
  if h : sum < 65536 then sum
  else fold_carries (sum % 65536 + sum / 65536)
decreasing_by omega

/-- ComputeIpv4HeaderChecksum: one's-complement sum of the big-endian
16-bit words of the header, complemented. -/
def compute_ipv4_header_checksum (buf : List Nat) (off ihlBytes : Nat) : Nat :=
  let sum := (List.range (ihlBytes / 2)).foldl
    (fun acc j => acc + (buf.getD (off + 2 * j) 0 * 256 + buf.getD (off + 2 * j + 1) 0)) 0
  65535 - fold_carries sum

/-- The fixIpv4Checksum lambda: when the IHL field describes a header that
fits in the buffer, zero the checksum bytes, recompute the checksum and
store htons(csum) with its high byte at offset+10. -/
def fix_ipv4_checksum (buf : List Nat) (off : Nat) : List Nat :=
  let ihl := buf.getD off 0 % 16
  let ihlBytes := ihl * 4
  if 20 ≤ ihlBytes ∧ off + ihlBytes ≤ buf.length then
    let buf1 := (buf.set (off + 10) 0).set (off + 11) 0
    let csum := compute_ipv4_header_checksum buf1 off ihlBytes
    let csumNet := csum % 256 * 256 + csum / 256
    (buf1.set (off + 10) (csumNet / 256 % 256)).set (off + 11) (csumNet % 256)
  else buf

/-- The memcpy of the serialized custom header over the start of the
payload, guarded by payload.size() >= hdBuf.size(). -/
def overwrite_start (payload hdBuf : List Nat) : List Nat :=
  if hdBuf.length ≤ payload.length then hdBuf ++ payload.drop hdBuf.length
  else payload

/-- The pure frame-building core of WritePacketToPcap: layer detection on
the serialized custom header `hdBuf` and the packet `payload`, IPv4
checksum fix, and Ethernet header synthesis; the result is the frame passed
to write_frame_with_timestamp. -/
def build_frame (hdBuf payload : List Nat) : List Nat :=
  let hasEth0 := is_ethernet payload
  let p0 := if is_ethernet hdBuf then overwrite_start payload hdBuf else payload
  let hasEthernet := hasEth0 || is_ethernet hdBuf
  let det : Bool × Nat :=
    if hasEthernet ∧ 14 ≤ p0.length then (is_ipv4 p0 14, 14)
    else if is_ipv4 p0 0 then (true, 0)
    else (false, 0)
  let p1 := if det.1 then fix_ipv4_checksum p0 det.2 else p0
  if ¬ hasEthernet then
    let ethertype : Nat := if det.1 then 0x0800 else 0x88B5
    [0, 0, 0, 0, 0, 1, 0, 0, 0, 0, 0, 2, ethertype / 256, ethertype % 256] ++ p1
  else p1

/-! ## Shared concrete material for witnesses -/

/-- Environment in which every dependency check succeeds. -/
def env_all : WEnv := ⟨fun _ => true, fun _ => true⟩

/-- A checkpoint layer used by concrete traces (zero compute so that every
sub-step completes in one invocation). -/
def layer_ck : Layer := ⟨0, 100, 0, 200, 0, 300, true, false⟩

/-- A recompute-trigger layer used by concrete traces. -/
def layer_tr : Layer := ⟨0, 100, 0, 200, 0, 300, false, true⟩

/-- A plain layer (no checkpoint flags) used by concrete traces. -/
def layer_pl : Layer := ⟨0, 4096, 0, 200, 0, 300, false, false⟩

/-- The Workload state at the start of a Forward_In_BackPass invocation for
layer i: flags reset, recomputation marked as initiated. -/
def fib_state (lay : List Layer) (i ctr pc : Nat) : Workload :=
  ⟨lay, .Forward_In_BackPass, (i : Int), pc, ctr, false, false, true⟩

/-! ## FSM invocation lemmas

One lemma per completed sub-phase of
iterate_hybrid_parallel_Transformer_fwd_in_bckwd: the hypotheses pin down
the flags that hold when the corresponding `return` sites have all been
passed, and the conclusion is the exact outcome of the next invocation. -/

/-- Completing a layer of Forward_Pass (delay served, collective issued):
the index advances; past the last layer the state becomes Input_Gradient
with the index pulled back to the last layer. -/
theorem fp_complete_step (env : WEnv) (w : Workload)
    (hst : w.current_state = .Forward_Pass)
    (hidx : 0 ≤ w.index) (hlt : w.index < (w.layers.length : Int))
    (hwg : env.wg_comm_finished w.index.toNat = true)
    (hdl : w.delay_loaded = true) (hcnt : w.counter = 0)
    (hci : w.collective_issued = true) :
    fwd_in_bckwd_step env w =
      (if w.index + 1 ≥ (w.layers.length : Int) then
        .ok { w with current_state := .Input_Gradient, index := w.index,
                     counter := 0, delay_loaded := false,
                     collective_issued := false } [.register_general]
      else
        .ok { w with index := w.index + 1, counter := 0, delay_loaded := false,
                     collective_issued := false } [.register_general]) := by
  have hn : w.index.toNat < w.layers.length := by omega
  have hL := List.get?_eq_get hn
  simp only [fwd_in_bckwd_step, hL, hst, hwg, hdl, hci, hcnt]
  rw [if_neg (not_not_intro ⟨hidx, hlt⟩)]
  simp only [Bool.not_true, not_true_eq_false, not_false_eq_true, if_true,
    if_false, gt_iff_lt, lt_self_iff_false, ite_false, ite_true]
  split
  · simp_all
  · simp_all

/-- Completing Input_Gradient at a layer where no recompute trigger fires
(flag clear or recomputation already initiated): the state moves to
Weight_Gradient at the same index. -/
theorem ig_complete_step (env : WEnv) (w : Workload)
    (hst : w.current_state = .Input_Gradient)
    (hidx : 0 ≤ w.index) (hlt : w.index < (w.layers.length : Int))
    (hnt : needsAt w.layers w.index.toNat = false ∨ w.checkpoint_initiated = true)
    (hdl : w.delay_loaded = true) (hcnt : w.counter = 0)
    (hci : w.collective_issued = true) :
    fwd_in_bckwd_step env w =
      .ok { w with current_state := .Weight_Gradient, counter := 0,
                   checkpoint_initiated := false, delay_loaded := false,
                   collective_issued := false } [.register_general] := by
  have hn : w.index.toNat < w.layers.length := by omega
  have hL := List.get?_eq_get hn
  have htrig : ¬ ((w.layers.get ⟨w.index.toNat, hn⟩).needs_fwd_in_bckwd_initiation
      ∧ ¬ w.checkpoint_initiated) := by
    rcases hnt with h | h
    · rw [needsAt, hL] at h
      simp at h
      simp [h]
    · simp [h]
  simp only [fwd_in_bckwd_step, hL, hst, hdl, hci, hcnt]
  rw [if_neg (not_not_intro ⟨hidx, hlt⟩)]
  rw [if_neg htrig]
  simp

/-- Completing Weight_Gradient (delay served, collective issued, input
gradient communication of the layer finished): the index decrements; at
index -1 the pass counter advances, the index resets to 0 and the state
returns to Forward_Pass, otherwise to Input_Gradient. -/
theorem wg_complete_step (env : WEnv) (w : Workload)
    (hst : w.current_state = .Weight_Gradient)
    (hidx : 0 ≤ w.index) (hlt : w.index < (w.layers.length : Int))
    (hig : env.ig_comm_finished w.index.toNat = true)
    (hdl : w.delay_loaded = true) (hcnt : w.counter = 0)
    (hci : w.collective_issued = true) :
    fwd_in_bckwd_step env w =
      (if w.index = 0 then
        .ok { w with index := 0, pass_counter := w.pass_counter + 1,
                     current_state := .Forward_Pass, counter := 0,
                     delay_loaded := false, collective_issued := false }
          [.register_general]
      else
        .ok { w with index := w.index - 1, current_state := .Input_Gradient,
                     counter := 0, delay_loaded := false,
                     collective_issued := false } [.register_general]) := by
  have hn : w.index.toNat < w.layers.length := by omega
  have hL := List.get?_eq_get hn
  simp only [fwd_in_bckwd_step, hL, hst, hig, hdl, hci, hcnt]
  rw [if_neg (not_not_intro ⟨hidx, hlt⟩)]
  simp only [Bool.not_true, not_true_eq_false, not_false_eq_true, if_true,
    if_false, gt_iff_lt, lt_self_iff_false, ite_false, ite_true,
    List.nil_append]
  split
  · rw [if_pos (by omega : w.index = 0)]
  · rw [if_neg (by omega : ¬ w.index = 0)]

/-- Reaching the issuance point of Forward_Pass (delay served, collective
not yet issued): one collective is issued with policy None and barrier
Blocking, and the byte count is floored to 4096 exactly when the stored
size lies strictly between 0 and 4096. -/
theorem fp_issue_step (env : WEnv) (w : Workload)
    (hst : w.current_state = .Forward_Pass)
    (hidx : 0 ≤ w.index) (hlt : w.index < (w.layers.length : Int))
    (hwg : env.wg_comm_finished w.index.toNat = true)
    (hdl : w.delay_loaded = true) (hcnt : w.counter = 0)
    (hci : w.collective_issued = false) :
    ∃ w1, fwd_in_bckwd_step env w = .ok w1
      [.issue_fwd_comm w.index.toNat SchedulingPolicy.None .Blocking
        (if fwdSizeAt w.layers w.index.toNat < 4096 ∧
            0 < fwdSizeAt w.layers w.index.toNat then 4096
         else fwdSizeAt w.layers w.index.toNat)] := by
  have hn : w.index.toNat < w.layers.length := by omega
  have hL := List.get?_eq_get hn
  have hsz : fwdSizeAt w.layers w.index.toNat
      = (w.layers.get ⟨w.index.toNat, hn⟩).fwd_pass_comm_size := by
    rw [fwdSizeAt, hL]; rfl
  refine ⟨{ w with
              counter := 0
              delay_loaded := true
              collective_issued := true
              layers := (w.layers.set w.index.toNat
                ({ w.layers.get ⟨w.index.toNat, hn⟩ with fwd_pass_comm_size :=
                    (if fwdSizeAt w.layers w.index.toNat < 4096 ∧
                        0 < fwdSizeAt w.layers w.index.toNat then 4096
                     else fwdSizeAt w.layers w.index.toNat) })) }, ?_⟩
  simp only [fwd_in_bckwd_step, hL, hst, hwg, hdl, hci, hcnt, hsz]
  rw [if_neg (not_not_intro ⟨hidx, hlt⟩)]
  simp

/-- Every weight-gradient collective the Transformer fwd-in-bckwd FSM ever
issues carries policy FIFO and barrier Non_Blocking. -/
theorem wg_issue_policy (env : WEnv) (w w1 : Workload) (acts : List WAction)
    (hok : fwd_in_bckwd_step env w = .ok w1 acts)
    (l : Nat) (p : SchedulingPolicy) (b : CollectiveBarrier) (sz : Nat)
    (hmem : WAction.issue_wg_comm l p b sz ∈ acts) :
    p = .FIFO ∧ b = .Non_Blocking := by
  unfold fwd_in_bckwd_step at hok
  simp only [] at hok
  repeat' split at hok
  all_goals try exact WOutcome.noConfusion hok
  all_goals injection hok with h1 h2
  all_goals subst h2
  all_goals simp_all

/-- Every forward-pass collective the Transformer fwd-in-bckwd FSM ever
issues (Forward_Pass and Forward_In_BackPass alike) carries policy None and
barrier Blocking. -/
theorem fwd_issue_policy (env : WEnv) (w w1 : Workload) (acts : List WAction)
    (hok : fwd_in_bckwd_step env w = .ok w1 acts)
    (l : Nat) (p : SchedulingPolicy) (b : CollectiveBarrier) (sz : Nat)
    (hmem : WAction.issue_fwd_comm l p b sz ∈ acts) :
    p = SchedulingPolicy.None ∧ b = .Blocking := by
  unfold fwd_in_bckwd_step at hok
  simp only [] at hok
  repeat' split at hok
  all_goals try exact WOutcome.noConfusion hok
  all_goals injection hok with h1 h2
  all_goals subst h2
  all_goals simp_all

/-- Every input-gradient collective the Transformer fwd-in-bckwd FSM ever
issues carries policy LIFO and barrier Blocking. -/
theorem ig_issue_policy (env : WEnv) (w w1 : Workload) (acts : List WAction)
    (hok : fwd_in_bckwd_step env w = .ok w1 acts)
    (l : Nat) (p : SchedulingPolicy) (b : CollectiveBarrier) (sz : Nat)
    (hmem : WAction.issue_ig_comm l p b sz ∈ acts) :
    p = .LIFO ∧ b = .Blocking := by
  unfold fwd_in_bckwd_step at hok
  simp only [] at hok
  repeat' split at hok
  all_goals try exact WOutcome.noConfusion hok
  all_goals injection hok with h1 h2
  all_goals subst h2
  all_goals simp_all

/-- While the input-gradient communication of the current layer is
unfinished, a Weight_Gradient invocation never moves the index or leaves
the state. -/
theorem wg_no_advance (env : WEnv) (w w1 : Workload) (acts : List WAction)
    (hst : w.current_state = .Weight_Gradient)
    (hig : env.ig_comm_finished w.index.toNat = false)
    (hok : fwd_in_bckwd_step env w = .ok w1 acts) :
    w1.index = w.index ∧ w1.current_state = .Weight_Gradient := by
  unfold fwd_in_bckwd_step at hok
  simp only [hst, hig] at hok
  repeat' split at hok
  all_goals try exact WOutcome.noConfusion hok
  all_goals injection hok with h1 h2
  all_goals subst h1
  all_goals simp_all

/-! ## Scheduler invariant lemmas -/

/-- Pointwise bump of a finite counter family raises its sum by the bump. -/
theorem sum_update_add {n : Nat} (f : Fin n → Nat) (d : Fin n) (k : Nat) :
    (∑ x, Function.update f d (f d + k) x) = (∑ x, f x) + k := by
  rw [Finset.sum_update_of_mem (Finset.mem_univ d),
    Finset.sdiff_singleton_eq_erase]
  have h2 := Finset.add_sum_erase Finset.univ f (Finset.mem_univ d)
  omega

/-- Pointwise decrement of a positive counter drops the sum by one. -/
theorem sum_update_sub {n : Nat} (f : Fin n → Nat) (d : Fin n)
    (h : 1 ≤ f d) :
    (∑ x, Function.update f d (f d - 1) x) + 1 = (∑ x, f x) := by
  rw [Finset.sum_update_of_mem (Finset.mem_univ d),
    Finset.sdiff_singleton_eq_erase]
  have h2 := Finset.add_sum_erase Finset.univ f (Finset.mem_univ d)
  omega

/-- The head-initialization loop keeps the scheduler invariant: it raises
running_streams[d] at most to the queue threshold and never beyond the
queue length. -/
theorem init_head_inv {n qt mrs : Nat} {s : SchedState n} (d : Fin n)
    (h : SchedInv qt mrs s) : SchedInv qt mrs (init_head qt s d) := by
  obtain ⟨h1, h2, h3, h4⟩ := h
  refine ⟨?_, ?_, h3, h4⟩
  · intro d'
    by_cases hd : d' = d
    · subst hd
      simp only [init_head, Function.update_same]
      simp only [max_le_iff]
      exact ⟨h1 d', le_trans (Nat.min_le_right _ _) le_rfl⟩
    · simp only [init_head, Function.update_noteq hd]
      exact h1 d'
  · intro d'
    by_cases hd : d' = d
    · subst hd
      simp only [init_head, Function.update_same]
      simp only [max_le_iff]
      exact ⟨h2 d', Nat.min_le_left _ _⟩
    · simp only [init_head, Function.update_noteq hd]
      exact h2 d'

/-- Promoting one ready-list stream keeps the invariant when the global cap
has room, and raises total_running_streams by one. -/
theorem promote_one_inv {n qt mrs : Nat} {s : SchedState n} (d : Fin n)
    (h : SchedInv qt mrs s) (hm : s.total_running_streams + 1 ≤ mrs) :
    SchedInv qt mrs (promote_one qt s d) ∧
    (promote_one qt s d).total_running_streams
      = s.total_running_streams + 1 := by
  obtain ⟨h1, h2, h3, h4⟩ := h
  have hmid : SchedInv qt mrs
      { s with ready_list := s.ready_list - 1,
               first_phase_streams := s.first_phase_streams + 1,
               total_running_streams := s.total_running_streams + 1,
               queue_len := (Function.update s.queue_len d (s.queue_len d + 1)) } := by
    refine ⟨h1, ?_, ?_, hm⟩
    · intro d'
      by_cases hd : d' = d
      · subst hd
        simp only [Function.update_same]
        exact le_trans (h2 d') (by omega)
      · simp only [Function.update_noteq hd]
        exact h2 d'
    · simp only
      rw [sum_update_add]
      omega
  exact ⟨init_head_inv d hmid, rfl⟩

/-- Sys::schedule keeps the invariant whenever the promoted batch fits
under max_running_streams, raising total_running_streams by the batch
size. -/
theorem schedule_inv {n qt mrs : Nat} :
    ∀ (ds : List (Fin n)) (s : SchedState n), SchedInv qt mrs s →
      s.total_running_streams + ds.length ≤ mrs →
      SchedInv qt mrs (sched_schedule qt s ds) ∧
      (sched_schedule qt s ds).total_running_streams
        = s.total_running_streams + ds.length
  | [], s, h, _ => ⟨h, rfl⟩
  | d :: ds, s, h, hm => by
      have hp := promote_one_inv d h (by simp at hm; omega)
      have ih := schedule_inv ds (promote_one qt s d) hp.1
        (by rw [hp.2]; simp at hm ⊢; omega)
      refine ⟨ih.1, ?_⟩
      rw [show sched_schedule qt s (d :: ds)
          = sched_schedule qt (promote_one qt s d) ds from rfl]
      rw [ih.2, hp.2]
      simp
      omega

/-- notify_stream_removed keeps the invariant; the precondition allows the
caller (proceed_to_next_vnet_baseline) to have already taken the completed
stream out of the queue of d, so running_streams[d] may exceed the queue
length by one until the decrement inside this call. -/
theorem notify_removed_inv {n qt mrs : Nat} (s : SchedState n) (d : Fin n)
    (ds : List (Fin n))
    (hq1 : ∀ d', s.running_streams d' ≤ qt)
    (hq2 : ∀ d', s.running_streams d' ≤ s.queue_len d' + 1)
    (h3 : (∑ x, s.queue_len x) ≤ s.total_running_streams)
    (h4 : s.total_running_streams ≤ mrs)
    (hq2' : ∀ d', d' ≠ d → s.running_streams d' ≤ s.queue_len d')
    (hm : s.total_running_streams + ds.length ≤ mrs) :
    SchedInv qt mrs (notify_stream_removed qt s d ds) := by
  have hmid : SchedInv qt mrs
      { s with running_streams :=
          (Function.update s.running_streams d (s.running_streams d - 1)) } := by
    refine ⟨?_, ?_, h3, h4⟩
    · intro d'
      by_cases hd : d' = d
      · subst hd
        simp only [Function.update_same]
        exact le_trans (Nat.sub_le _ _) (hq1 d')
      · simp only [Function.update_noteq hd]
        exact hq1 d'
    · intro d'
      by_cases hd : d' = d
      · subst hd
        simp only [Function.update_same]
        have := hq2 d'
        omega
      · simp only [Function.update_noteq hd]
        exact hq2' d' hd
  have hsch := schedule_inv ds _ hmid hm
  exact init_head_inv d hsch.1

/-- Advancing a stream from the queue of d to the queue of dNext keeps the
invariant. -/
theorem sched_advance_inv {n qt mrs : Nat} {s : SchedState n}
    (d dNext : Fin n) (wasFirst : Bool) (ds : List (Fin n))
    (h : SchedInv qt mrs s) (hq : 1 ≤ s.queue_len d)
    (hm : s.total_running_streams + ds.length ≤ mrs) :
    SchedInv qt mrs (sched_advance qt s d dNext wasFirst ds) := by
  obtain ⟨h1, h2, h3, h4⟩ := h
  set q1 := Function.update s.queue_len d (s.queue_len d - 1) with hq1def
  set q2 := Function.update q1 dNext (q1 dNext + 1) with hq2def
  have hsum1 : (∑ x, q1 x) + 1 = ∑ x, s.queue_len x :=
    sum_update_sub s.queue_len d hq
  have hsum2 : (∑ x, q2 x) = (∑ x, q1 x) + 1 :=
    sum_update_add q1 dNext 1
  have hray : ∀ d', s.running_streams d' ≤ q2 d' + 1 := by
    intro d'
    by_cases hdn : d' = dNext
    · subst hdn
      rw [hq2def, Function.update_same]
      by_cases hdd : d' = d
      · subst hdd
        rw [hq1def, Function.update_same]
        have := h2 d'
        omega
      · rw [hq1def, Function.update_noteq hdd]
        have := h2 d'
        omega
    · rw [hq2def, Function.update_noteq hdn]
      by_cases hdd : d' = d
      · subst hdd
        rw [hq1def, Function.update_same]
        have := h2 d'
        omega
      · rw [hq1def, Function.update_noteq hdd]
        have := h2 d'
        omega
  have hray2 : ∀ d', d' ≠ d → s.running_streams d' ≤ q2 d' := by
    intro d' hd
    by_cases hdn : d' = dNext
    · subst hdn
      rw [hq2def, Function.update_same, hq1def, Function.update_noteq hd]
      have := h2 d'
      omega
    · rw [hq2def, Function.update_noteq hdn, hq1def, Function.update_noteq hd]
      exact h2 d'
  have hstep := notify_removed_inv
      { s with queue_len := q2,
               first_phase_streams :=
                 (if wasFirst then s.first_phase_streams - 1
                  else s.first_phase_streams) } d ds
    h1 hray (by simp only; omega) h4 hray2 (by simp only; omega)
  have hfinal := init_head_inv dNext hstep
  exact hfinal

/-- Completing the last phase of a stream keeps the invariant. -/
theorem sched_finish_inv {n qt mrs : Nat} {s : SchedState n}
    (d : Fin n) (wasFirst : Bool) (ds : List (Fin n))
    (h : SchedInv qt mrs s) (hq : 1 ≤ s.queue_len d)
    (hm : s.total_running_streams - 1 + ds.length ≤ mrs) :
    SchedInv qt mrs (sched_finish qt s d wasFirst ds) := by
  obtain ⟨h1, h2, h3, h4⟩ := h
  have htot : 1 ≤ s.total_running_streams := by
    have hone : s.queue_len d ≤ ∑ x, s.queue_len x :=
      Finset.single_le_sum (fun i _ => Nat.zero_le (s.queue_len i))
        (Finset.mem_univ d)
    omega
  have hsum1 : (∑ x, Function.update s.queue_len d (s.queue_len d - 1) x) + 1
      = ∑ x, s.queue_len x := sum_update_sub s.queue_len d hq
  have hray : ∀ d',
      s.running_streams d'
        ≤ Function.update s.queue_len d (s.queue_len d - 1) d' + 1 := by
    intro d'
    by_cases hd : d' = d
    · subst hd
      rw [Function.update_same]
      have := h2 d'
      omega
    · rw [Function.update_noteq hd]
      have := h2 d'
      omega
  have hray2 : ∀ d', d' ≠ d →
      s.running_streams d'
        ≤ Function.update s.queue_len d (s.queue_len d - 1) d' := by
    intro d' hd
    rw [Function.update_noteq hd]
    exact h2 d'
  exact notify_removed_inv
      { s with queue_len := (Function.update s.queue_len d (s.queue_len d - 1)),
               total_running_streams := s.total_running_streams - 1,
               first_phase_streams :=
                 (if wasFirst then s.first_phase_streams - 1
                  else s.first_phase_streams) } d ds
    h1 hray (by simp only; omega) (by simp only; omega) hray2
    (by simp only; omega)

/-- Every scheduler state reachable from node construction satisfies the
invariant. -/
theorem sched_inv_of_reachable {n qt mrs : Nat} {s : SchedState n}
    (h : SchedReachable qt mrs s) : SchedInv qt mrs s := by
  induction h with
  | init =>
      refine ⟨fun d => Nat.le_refl 0 |>.trans (Nat.zero_le qt), fun d => le_rfl, ?_, Nat.zero_le mrs⟩
      simp [sched_init]
  | step hr hstep ih =>
      cases hstep with
      | new_stream => exact ih
      | ready_promote ds h1 h2 => exact (schedule_inv ds _ ih h2).1
      | advance d dNext wasFirst ds hrun hq h1 h2 =>
          exact sched_advance_inv d dNext wasFirst ds ih hq h2
      | finish d wasFirst ds hrun hq h1 h2 =>
          exact sched_finish_inv d wasFirst ds ih hq h2

/-- C2: in every reachable state of the stream scheduler, the count of
initialized (running) streams of each dimension never exceeds
queue_threshold, and the total number of running streams across all
dimensions never exceeds max_running_streams; both bounds are preserved by
notify_stream_added, notify_stream_removed and schedule, which are the
only operations of the transition relation. -/
theorem C2_scheduler_admission_bounds {n qt mrs : Nat} (s : SchedState n)
    (h : SchedReachable qt mrs s) :
    (∀ d, s.running_streams d ≤ qt) ∧
    (∑ d, s.running_streams d) ≤ mrs := by
  have hi := sched_inv_of_reachable h
  refine ⟨hi.1, ?_⟩
  have hle : (∑ d, s.running_streams d) ≤ ∑ d, s.queue_len d :=
    Finset.sum_le_sum (fun i _ => hi.2.1 i)
  have h2 := hi.2.2.1
  have h3 := hi.2.2.2
  omega

/-- C2 witness: with 2 dimensions, queue_threshold 1 and
max_running_streams 2, the state reached by creating one stream and
promoting it into dimension 0 satisfies both bounds. -/
theorem C2_witness :
    (∀ d, (sched_schedule 1
        { sched_init 2 with ready_list := (sched_init 2).ready_list + 1 }
        [(0 : Fin 2)]).running_streams d ≤ 1) ∧
    (∑ d, (sched_schedule 1
        { sched_init 2 with ready_list := (sched_init 2).ready_list + 1 }
        [(0 : Fin 2)]).running_streams d) ≤ 2 := by
  refine C2_scheduler_admission_bounds _
    (SchedReachable.step
      (SchedReachable.step SchedReachable.init (SchedStep.new_stream _))
      (SchedStep.ready_promote _ [(0 : Fin 2)] ?_ ?_))
  · decide
  · decide

/-! ## Theorems -/

/-- C5: the spec promises a ConfigError panic when the recompute trigger
fires at a layer with no checkpoint at or before it, before any read below
layer index 0.  The code block of the Input_Gradient state
(`while (!layers[index--]->is_checkpoint);`) contains no such check: on a
single-layer workload whose layer 0 has needs_fwd_in_bckwd_initiation set
and is_checkpoint clear, the backward scan dereferences layers[-1]
(out-of-bounds, undefined behavior) and no configuration error is raised. -/
theorem C5_no_panic_before_oob_scan :
    fwd_in_bckwd_step env_all
      ⟨[⟨0, 0, 0, 0, 0, 0, false, true⟩], .Input_Gradient, 0, 0, 0,
        false, false, false⟩ = .oob_read := by
  rfl

/-- The dimension-search loop with accumulator: as long as the running
product stays at or below the target the loop keeps the dimensions, and the
first dimension pushing the product beyond the target is split. -/
theorem break_dims_from_eq (target dk : Nat) (post : List Nat) :
    ∀ (pre : List Nat) (A : Nat), (∀ x ∈ pre, 0 < x) →
      A * pre.prod ≤ target → target < A * pre.prod * dk →
      break_dims_from target A (pre ++ dk :: post)
        = pre ++ (target / (A * pre.prod))
            :: (dk / (target / (A * pre.prod))) :: post
  | [], A, _, hle, hlt => by
      simp only [List.prod_nil, mul_one] at hle hlt
      simp [break_dims_from, hlt]
  | x :: pre, A, hpos, hle, hlt => by
      have hx : 0 < x := hpos x (by simp)
      have hpre : 1 ≤ pre.prod :=
        List.one_le_prod_of_one_le (fun y hy => hpos y (by simp [hy]))
      have hprod : A * (x :: pre).prod = A * x * pre.prod := by
        simp [List.prod_cons, mul_assoc]
      have hguard : ¬ target < A * x := by
        have h1 : A * x ≤ A * x * pre.prod :=
          Nat.le_mul_of_pos_right _ (by omega)
        have h2 : A * x * pre.prod ≤ target := by rw [← hprod]; exact hle
        omega
      have ih := break_dims_from_eq target dk post pre (A * x)
        (fun y hy => hpos y (by simp [hy]))
        (by rw [← hprod]; exact hle)
        (by rw [← hprod]; exact hlt)
      simp only [List.cons_append, break_dims_from, if_neg hguard,
        List.append_eq, ih, hprod]

/-- C8: for a valid target group size — the running product of the
dimensions before `dk` stays at or below the target, multiplying in `dk`
exceeds it, the product before the split point divides the target and the
resulting first subdimension divides `dk` — Sys::break_dimension replaces
`dk` by the pair `(a, b)` with `a = target / prefix-product`, `a * b = dk`,
prefix-product * a = target, and the product of all physical dimensions is
unchanged (it still equals the total node count). -/
theorem C8_break_dimension_splits_and_preserves_product
    (pre post : List Nat) (dk target : Nat)
    (hpos : ∀ x ∈ pre, 0 < x)
    (hle : pre.prod ≤ target)
    (hlt : target < pre.prod * dk)
    (hdvd1 : pre.prod ∣ target)
    (hdvd2 : target / pre.prod ∣ dk) :
    break_dimension (pre ++ dk :: post) target
      = pre ++ (target / pre.prod) :: (dk / (target / pre.prod)) :: post ∧
    (target / pre.prod) * (dk / (target / pre.prod)) = dk ∧
    pre.prod * (target / pre.prod) = target ∧
    (break_dimension (pre ++ dk :: post) target).prod
      = (pre ++ dk :: post).prod := by
  have h1 : break_dimension (pre ++ dk :: post) target
      = pre ++ (target / pre.prod) :: (dk / (target / pre.prod)) :: post := by
    have h := break_dims_from_eq target dk post pre 1 hpos
      (by simpa using hle) (by simpa using hlt)
    simpa [break_dimension] using h
  have h2 : (target / pre.prod) * (dk / (target / pre.prod)) = dk :=
    Nat.mul_div_cancel' hdvd2
  have h3 : pre.prod * (target / pre.prod) = target :=
    Nat.mul_div_cancel' hdvd1
  refine ⟨h1, h2, h3, ?_⟩
  rw [h1]
  simp only [List.prod_append, List.prod_cons]
  rw [← mul_assoc (target / pre.prod), h2]

/-- C8 witness: physical dimensions [8, 8] and a target group of 16 split
the second dimension into (2, 4); the node count 64 is preserved. -/
theorem C8_witness :
    break_dimension [8, 8] 16 = [8, 2, 4] ∧
    2 * 4 = 8 ∧ (8 : Nat) * 2 = 16 ∧
    (break_dimension [8, 8] 16).prod = ([8, 8] : List Nat).prod := by
  have h := C8_break_dimension_splits_and_preserves_product
    [8] [] 8 16 (by decide) (by decide) (by decide) (by decide) (by decide)
  simpa using h

/-- C9: a forward-pass collective issuance in which no topology dimension
participates — every involved dimension is either disabled or has size 1 —
or whose byte count is zero produces an inactive batch handled at zero
cost: the DataSet is inactive, no entry is recorded in fwd_pass_datasets,
collective_counter is restored, and with a Blocking barrier the workload is
resumed immediately (with a Non_Blocking barrier nothing further happens);
no network activity is generated either way. -/
theorem C9_inactive_collective_zero_cost (l : LayerIssueState) (newId : Nat)
    (barrier : CollectiveBarrier)
    (h : l.fwd_pass_comm_size = 0 ∨
         ∀ d ∈ l.fwd_pass_comm_involved_dimensions,
           d.involved = false ∨ d.size ≤ 1) :
    collective_active l.fwd_pass_comm_size
        l.fwd_pass_comm_involved_dimensions = false ∧
    (issue_forward_pass_comm l newId barrier).1.fwd_pass_datasets
      = l.fwd_pass_datasets ∧
    (issue_forward_pass_comm l newId barrier).1.collective_counter
      = l.collective_counter ∧
    (issue_forward_pass_comm l newId barrier).2
      = (if barrier = .Blocking then [.log_inactive, .resume_workload]
         else [.log_inactive]) := by
  have hact : collective_active l.fwd_pass_comm_size
      l.fwd_pass_comm_involved_dimensions = false := by
    rcases h with h0 | hd
    · simp [collective_active, h0]
    · simp only [collective_active, Bool.and_eq_false_iff]
      right
      rw [List.any_eq_false]
      intro d hdmem
      rcases hd d hdmem with h1 | h1
      · simp [h1]
      · have hsz : ¬ 1 < d.size := by omega
        simp [hsz]
  refine ⟨hact, ?_, ?_, ?_⟩ <;>
    simp [issue_forward_pass_comm, hact]

/-- C9 witness: a layer whose forward collective spans one disabled
dimension and one dimension of size 1, issued Blocking: the dataset list
and counter are untouched and the workload resumes at once. -/
theorem C9_witness :
    collective_active 4096 [⟨false, 8⟩, ⟨true, 1⟩] = false ∧
    (issue_forward_pass_comm ⟨4096, [⟨false, 8⟩, ⟨true, 1⟩], [5], 3, .Blocking⟩
        7 .Blocking).1.fwd_pass_datasets = [5] ∧
    (issue_forward_pass_comm ⟨4096, [⟨false, 8⟩, ⟨true, 1⟩], [5], 3, .Blocking⟩
        7 .Blocking).1.collective_counter = 3 ∧
    (issue_forward_pass_comm ⟨4096, [⟨false, 8⟩, ⟨true, 1⟩], [5], 3, .Blocking⟩
        7 .Blocking).2
      = (if (CollectiveBarrier.Blocking = .Blocking)
         then [LAction.log_inactive, LAction.resume_workload]
         else [LAction.log_inactive]) := by
  exact C9_inactive_collective_zero_cost
    ⟨4096, [⟨false, 8⟩, ⟨true, 1⟩], [5], 3, .Blocking⟩ 7 .Blocking
    (Or.inr (by decide))

/-- fixIpv4Checksum only overwrites bytes in place: the buffer length is
unchanged. -/
theorem fix_ipv4_checksum_length (buf : List Nat) (off : Nat) :
    (fix_ipv4_checksum buf off).length = buf.length := by
  simp only [fix_ipv4_checksum]
  split
  · simp
  · rfl

/-- The header memcpy keeps the payload length. -/
theorem overwrite_start_length (payload hdBuf : List Nat) :
    (overwrite_start payload hdBuf).length = payload.length := by
  unfold overwrite_start
  split
  · rename_i h
    simp only [List.length_append, List.length_drop]
    omega
  · rfl

/-- Length of the frame WritePacketToPcap builds: the payload length when
either buffer passes the ethertype test, otherwise 14 bytes more. -/
theorem build_frame_length (hdBuf payload : List Nat) :
    (build_frame hdBuf payload).length
      = (if is_ethernet payload || is_ethernet hdBuf then payload.length
         else 14 + payload.length) := by
  have hov := overwrite_start_length payload hdBuf
  simp only [build_frame]
  repeat' split
  all_goals
    simp_all [fix_ipv4_checksum_length, overwrite_start_length]
  all_goals omega

/-- C10 counterexample: the claim says every frame handed to
write_frame_with_timestamp is at least 14 bytes long.  When the serialized
custom header passes the ethertype test but the packet payload is empty,
the memcpy guard (payload.size() >= hdBuf.size()) skips the copy and the
frame written is the empty payload: 0 bytes. -/
theorem C10_counterexample_short_frame :
    build_frame [0, 0, 0, 0, 0, 0, 0, 0, 0, 0, 0, 0, 8, 0] [] = [] ∧
    ¬ 14 ≤ (build_frame [0, 0, 0, 0, 0, 0, 0, 0, 0, 0, 0, 0, 8, 0] []).length := by
  constructor
  · rfl
  · decide

/-- C10 (amended): when neither the serialized custom header nor the payload
starts with a recognized ethertype, WritePacketToPcap hands
write_frame_with_timestamp a synthesized frame — destination MAC
00:00:00:00:00:01, source MAC 00:00:00:00:00:02, ethertype 0x0800 when the
payload parses as IPv4 (with its header checksum recomputed), 0x88B5
otherwise — of exactly 14 + payload bytes; otherwise the frame is the
(possibly header-overwritten, checksum-fixed) payload itself, and it is at
least 14 bytes whenever the payload is.  (The original claim fails when the
ethertype test passes only via the custom header on a payload shorter than
14 bytes.) -/
theorem C10_frame_synthesis (hdBuf payload : List Nat) :
    (is_ethernet hdBuf = false → is_ethernet payload = false →
      build_frame hdBuf payload
        = (if is_ipv4 payload 0 then [0, 0, 0, 0, 0, 1, 0, 0, 0, 0, 0, 2, 8, 0]
           else [0, 0, 0, 0, 0, 1, 0, 0, 0, 0, 0, 2, 136, 181])
          ++ (if is_ipv4 payload 0 then fix_ipv4_checksum payload 0 else payload) ∧
      (build_frame hdBuf payload).length = 14 + payload.length) ∧
    (14 ≤ payload.length → 14 ≤ (build_frame hdBuf payload).length) := by
  constructor
  · intro hnh hnp
    constructor
    · cases hip : is_ipv4 payload 0 <;>
        simp [build_frame, hnh, hnp, hip]
    · rw [build_frame_length, hnh, hnp]
      simp
  · intro hlen
    rw [build_frame_length]
    split <;> omega

/-- C10 witness: a three-byte custom header and a two-byte payload (no
recognized ethertype, not IPv4) produce the synthesized 0x88B5 frame of 16
bytes, and a 15-byte ethernet payload keeps its length of at least 14. -/
theorem C10_witness :
    build_frame [1, 2, 3] [9, 9]
      = [0, 0, 0, 0, 0, 1, 0, 0, 0, 0, 0, 2, 136, 181] ++ [9, 9] ∧
    (build_frame [1, 2, 3] [9, 9]).length = 14 + 2 ∧
    14 ≤ (build_frame [] [0, 0, 0, 0, 0, 0, 0, 0, 0, 0, 0, 0, 8, 0, 7]).length := by
  have h := (C10_frame_synthesis [1, 2, 3] [9, 9]).1 (by decide) (by decide)
  have hip : is_ipv4 [9, 9] 0 = false := by rfl
  rw [hip] at h
  refine ⟨by simpa using h.1, by simpa using h.2, ?_⟩
  exact (C10_frame_synthesis [] [0, 0, 0, 0, 0, 0, 0, 0, 0, 0, 0, 0, 8, 0, 7]).2
    (by decide)

/-- C1: in a non-checkpoint run of the workload FSM
(iterate_hybrid_parallel_Transformer_fwd_in_bckwd), completing a layer in
Forward_Pass increments the index, and on reaching SIZE the state becomes
Input_Gradient with the index back at SIZE-1; completing Input_Gradient
moves to Weight_Gradient at the same index; completing Weight_Gradient
decrements the index, and when it hits -1 the pass counter advances, the
index resets to 0 and the state returns to Forward_Pass, otherwise the
state returns to Input_Gradient at the new index. -/
theorem C1_fsm_layer_transitions (env : WEnv) (w : Workload)
    (hidx : 0 ≤ w.index) (hlt : w.index < (w.layers.length : Int))
    (hdl : w.delay_loaded = true) (hcnt : w.counter = 0)
    (hci : w.collective_issued = true) :
    (w.current_state = .Forward_Pass →
      env.wg_comm_finished w.index.toNat = true →
      fwd_in_bckwd_step env w =
        (if w.index + 1 ≥ (w.layers.length : Int) then
          .ok { w with current_state := .Input_Gradient, index := w.index,
                       counter := 0, delay_loaded := false,
                       collective_issued := false } [.register_general]
        else
          .ok { w with index := w.index + 1, counter := 0,
                       delay_loaded := false, collective_issued := false }
            [.register_general])) ∧
    (w.current_state = .Input_Gradient →
      (needsAt w.layers w.index.toNat = false ∨ w.checkpoint_initiated = true) →
      fwd_in_bckwd_step env w =
        .ok { w with current_state := .Weight_Gradient, counter := 0,
                     checkpoint_initiated := false, delay_loaded := false,
                     collective_issued := false } [.register_general]) ∧
    (w.current_state = .Weight_Gradient →
      env.ig_comm_finished w.index.toNat = true →
      fwd_in_bckwd_step env w =
        (if w.index = 0 then
          .ok { w with index := 0, pass_counter := w.pass_counter + 1,
                       current_state := .Forward_Pass, counter := 0,
                       delay_loaded := false, collective_issued := false }
            [.register_general]
        else
          .ok { w with index := w.index - 1, current_state := .Input_Gradient,
                       counter := 0, delay_loaded := false,
                       collective_issued := false } [.register_general])) :=
  ⟨fun hst hwg => fp_complete_step env w hst hidx hlt hwg hdl hcnt hci,
   fun hst hnt => ig_complete_step env w hst hidx hlt hnt hdl hcnt hci,
   fun hst hig => wg_complete_step env w hst hidx hlt hig hdl hcnt hci⟩

/-- C1 witness: one complete backward hand-off on a two-layer workload:
Forward_Pass 0 to 1, Forward_Pass 1 to Input_Gradient 1, Input_Gradient 1
to Weight_Gradient 1, Weight_Gradient 1 to Input_Gradient 0, and
Weight_Gradient 0 closing the pass back to Forward_Pass 0. -/
theorem C1_witness :
    fwd_in_bckwd_step env_all
        ⟨[layer_pl, layer_pl], .Forward_Pass, 0, 0, 0, true, true, false⟩
      = .ok ⟨[layer_pl, layer_pl], .Forward_Pass, 1, 0, 0, false, false, false⟩
          [.register_general] ∧
    fwd_in_bckwd_step env_all
        ⟨[layer_pl, layer_pl], .Forward_Pass, 1, 0, 0, true, true, false⟩
      = .ok ⟨[layer_pl, layer_pl], .Input_Gradient, 1, 0, 0, false, false, false⟩
          [.register_general] ∧
    fwd_in_bckwd_step env_all
        ⟨[layer_pl, layer_pl], .Input_Gradient, 1, 0, 0, true, true, false⟩
      = .ok ⟨[layer_pl, layer_pl], .Weight_Gradient, 1, 0, 0, false, false, false⟩
          [.register_general] ∧
    fwd_in_bckwd_step env_all
        ⟨[layer_pl, layer_pl], .Weight_Gradient, 1, 0, 0, true, true, false⟩
      = .ok ⟨[layer_pl, layer_pl], .Input_Gradient, 0, 0, 0, false, false, false⟩
          [.register_general] ∧
    fwd_in_bckwd_step env_all
        ⟨[layer_pl, layer_pl], .Weight_Gradient, 0, 0, 0, true, true, false⟩
      = .ok ⟨[layer_pl, layer_pl], .Forward_Pass, 0, 1, 0, false, false, false⟩
          [.register_general] := by
  refine ⟨?_, ?_, ?_, ?_, ?_⟩
  · have h := (C1_fsm_layer_transitions env_all
      ⟨[layer_pl, layer_pl], .Forward_Pass, 0, 0, 0, true, true, false⟩
      (by decide) (by decide) rfl rfl rfl).1 rfl rfl
    simpa using h
  · have h := (C1_fsm_layer_transitions env_all
      ⟨[layer_pl, layer_pl], .Forward_Pass, 1, 0, 0, true, true, false⟩
      (by decide) (by decide) rfl rfl rfl).1 rfl rfl
    simpa using h
  · have h := (C1_fsm_layer_transitions env_all
      ⟨[layer_pl, layer_pl], .Input_Gradient, 1, 0, 0, true, true, false⟩
      (by decide) (by decide) rfl rfl rfl).2.1 rfl (Or.inl (by decide))
    simpa using h
  · have h := (C1_fsm_layer_transitions env_all
      ⟨[layer_pl, layer_pl], .Weight_Gradient, 1, 0, 0, true, true, false⟩
      (by decide) (by decide) rfl rfl rfl).2.2 rfl rfl
    simpa using h
  · have h := (C1_fsm_layer_transitions env_all
      ⟨[layer_pl, layer_pl], .Weight_Gradient, 0, 0, 0, true, true, false⟩
      (by decide) (by decide) rfl rfl rfl).2.2 rfl rfl
    simpa using h

/-- C6 counterexample: the claim quantifies over every backward pass of the
workload FSM, and its cited sources include iterate_data_parallel; there,
on a one-layer workload at Weight_Gradient with the compute delay served,
the weight-gradient collective goes out with SchedulingPolicy::None, not
FIFO. -/
theorem C6_counterexample_data_parallel_policy :
    data_parallel_step env_all
        ⟨[⟨0, 0, 0, 0, 0, 300, false, false⟩], .Weight_Gradient, 0, 5, 0,
          true, false, false⟩
      = .ok ⟨[⟨0, 0, 0, 0, 0, 300, false, false⟩], .Forward_Pass, 0, 6, 0,
          false, false, false⟩
          [.issue_wg_comm 0 SchedulingPolicy.None .Non_Blocking 300,
           .register_general] ∧
    SchedulingPolicy.None ≠ SchedulingPolicy.FIFO := by
  exact ⟨rfl, by decide⟩

/-- C6 (amended): restricted to the Transformer fwd-in-bckwd FSM the claim
holds: every weight-gradient collective it issues carries policy FIFO and
barrier Non_Blocking, and a Weight_Gradient invocation leaves the index and
state untouched while the input-gradient communication of the current layer
is unfinished.  (The data-parallel FSM instead issues weight-gradient
collectives with SchedulingPolicy::None.) -/
theorem C6_wg_fifo_nonblocking_and_ig_wait :
    (∀ (env : WEnv) (w w1 : Workload) (acts : List WAction)
        (l : Nat) (p : SchedulingPolicy) (b : CollectiveBarrier) (sz : Nat),
      fwd_in_bckwd_step env w = .ok w1 acts →
      WAction.issue_wg_comm l p b sz ∈ acts →
      p = .FIFO ∧ b = .Non_Blocking) ∧
    (∀ (env : WEnv) (w w1 : Workload) (acts : List WAction),
      w.current_state = .Weight_Gradient →
      env.ig_comm_finished w.index.toNat = false →
      fwd_in_bckwd_step env w = .ok w1 acts →
      w1.index = w.index ∧ w1.current_state = .Weight_Gradient) :=
  ⟨fun env w w1 acts l p b sz hok hmem =>
      wg_issue_policy env w w1 acts hok l p b sz hmem,
   fun env w w1 acts hst hig hok => wg_no_advance env w w1 acts hst hig hok⟩

/-- C6 witness: a concrete Weight_Gradient invocation with the input
gradient still outstanding issues its FIFO / Non_Blocking collective and
stays at layer 0 in Weight_Gradient. -/
theorem C6_witness :
    fwd_in_bckwd_step ⟨fun _ => true, fun _ => false⟩
        ⟨[⟨0, 0, 0, 0, 0, 300, false, false⟩], .Weight_Gradient, 0, 0, 0,
          true, false, false⟩
      = .ok ⟨[⟨0, 0, 0, 0, 0, 300, false, false⟩], .Weight_Gradient, 0, 0, 0,
          true, true, false⟩
          [.issue_wg_comm 0 .FIFO .Non_Blocking 300] ∧
    (SchedulingPolicy.FIFO = .FIFO ∧
      CollectiveBarrier.Non_Blocking = .Non_Blocking) ∧
    ((⟨[⟨0, 0, 0, 0, 0, 300, false, false⟩], .Weight_Gradient, 0, 0, 0,
        true, true, false⟩ : Workload).index
      = (⟨[⟨0, 0, 0, 0, 0, 300, false, false⟩], .Weight_Gradient, 0, 0, 0,
          true, false, false⟩ : Workload).index ∧
     (⟨[⟨0, 0, 0, 0, 0, 300, false, false⟩], .Weight_Gradient, 0, 0, 0,
        true, true, false⟩ : Workload).current_state = .Weight_Gradient) := by
  have hok : fwd_in_bckwd_step ⟨fun _ => true, fun _ => false⟩
      ⟨[⟨0, 0, 0, 0, 0, 300, false, false⟩], .Weight_Gradient, 0, 0, 0,
        true, false, false⟩
      = .ok ⟨[⟨0, 0, 0, 0, 0, 300, false, false⟩], .Weight_Gradient, 0, 0, 0,
          true, true, false⟩
          [.issue_wg_comm 0 .FIFO .Non_Blocking 300] := rfl
  refine ⟨hok, ?_, ?_⟩
  · exact C6_wg_fifo_nonblocking_and_ig_wait.1 _ _ _ _ 0 .FIFO .Non_Blocking
      300 hok (by decide)
  · exact C6_wg_fifo_nonblocking_and_ig_wait.2 _ _ _ _ rfl rfl hok

/-- C7: every forward-pass collective of the Transformer fwd-in-bckwd FSM
is issued with policy None and barrier Blocking, and at the Forward_Pass
issuance point the byte count actually issued is 4096 exactly when the
stored forward size lies strictly between 0 and 4096 bytes, and the stored
size itself otherwise (0 and sizes of at least 4096 go out unchanged). -/
theorem C7_fwd_policy_and_floor :
    (∀ (env : WEnv) (w w1 : Workload) (acts : List WAction)
        (l : Nat) (p : SchedulingPolicy) (b : CollectiveBarrier) (sz : Nat),
      fwd_in_bckwd_step env w = .ok w1 acts →
      WAction.issue_fwd_comm l p b sz ∈ acts →
      p = SchedulingPolicy.None ∧ b = .Blocking) ∧
    (∀ (env : WEnv) (w : Workload),
      w.current_state = .Forward_Pass →
      0 ≤ w.index → w.index < (w.layers.length : Int) →
      env.wg_comm_finished w.index.toNat = true →
      w.delay_loaded = true → w.counter = 0 → w.collective_issued = false →
      ∃ w1, fwd_in_bckwd_step env w = .ok w1
        [.issue_fwd_comm w.index.toNat SchedulingPolicy.None .Blocking
          (if fwdSizeAt w.layers w.index.toNat < 4096 ∧
              0 < fwdSizeAt w.layers w.index.toNat then 4096
           else fwdSizeAt w.layers w.index.toNat)]) :=
  ⟨fun env w w1 acts l p b sz hok hmem =>
      fwd_issue_policy env w w1 acts hok l p b sz hmem,
   fun env w hst hidx hlt hwg hdl hcnt hci =>
      fp_issue_step env w hst hidx hlt hwg hdl hcnt hci⟩

/-- C7 witness: a forward size of 100 bytes goes out floored to 4096, a
size of 8192 goes out unchanged, and a size of 0 goes out as 0, all with
policy None and barrier Blocking. -/
theorem C7_witness :
    (∃ w1, fwd_in_bckwd_step env_all
        ⟨[⟨0, 100, 0, 0, 0, 0, false, false⟩], .Forward_Pass, 0, 0, 0,
          true, false, false⟩
      = .ok w1 [.issue_fwd_comm 0 SchedulingPolicy.None .Blocking 4096]) ∧
    (∃ w1, fwd_in_bckwd_step env_all
        ⟨[⟨0, 8192, 0, 0, 0, 0, false, false⟩], .Forward_Pass, 0, 0, 0,
          true, false, false⟩
      = .ok w1 [.issue_fwd_comm 0 SchedulingPolicy.None .Blocking 8192]) ∧
    (∃ w1, fwd_in_bckwd_step env_all
        ⟨[⟨0, 0, 0, 0, 0, 0, false, false⟩], .Forward_Pass, 0, 0, 0,
          true, false, false⟩
      = .ok w1 [.issue_fwd_comm 0 SchedulingPolicy.None .Blocking 0]) := by
  refine ⟨?_, ?_, ?_⟩
  · have h := C7_fwd_policy_and_floor.2 env_all
      ⟨[⟨0, 100, 0, 0, 0, 0, false, false⟩], .Forward_Pass, 0, 0, 0,
        true, false, false⟩ rfl (by decide) (by decide) rfl rfl rfl rfl
    simpa using h
  · have h := C7_fwd_policy_and_floor.2 env_all
      ⟨[⟨0, 8192, 0, 0, 0, 0, false, false⟩], .Forward_Pass, 0, 0, 0,
        true, false, false⟩ rfl (by decide) (by decide) rfl rfl rfl rfl
    simpa using h
  · have h := C7_fwd_policy_and_floor.2 env_all
      ⟨[⟨0, 0, 0, 0, 0, 0, false, false⟩], .Forward_Pass, 0, 0, 0,
        true, false, false⟩ rfl (by decide) (by decide) rfl rfl rfl rfl
    simpa using h

theorem send_inv_of_reachable {s : SendState} (h : SendReachable s) :
    SendInv s := by
  induction h with
  | init => intro k; rfl
  | @send s0 delay dst tag msg _ ih =>
      intro k
      simp only [sim_send]
      split
      · rename_i hcond
        by_cases hk : k = (dst, tag)
        · subst hk
          have h0 := ih (dst, tag)
          simp only [Function.update_same]
          simp [hcond.2] at h0
          simp [h0]
        · simp only [Function.update_noteq hk]
          exact ih k
      · exact ih k
  | @sent s0 dst tag _ hinf ih =>
      intro k
      have h0 := ih (dst, tag)
      have hbusy : s0.is_there_pending_sends (dst, tag) = true := by
        by_contra hb
        simp only [Bool.not_eq_true] at hb
        rw [hb] at h0
        simp at h0
        omega
      rw [hbusy] at h0
      simp only [if_true, if_pos] at h0
      cases hp : s0.pending_sends (dst, tag) with
      | nil =>
          simp only [handle_packet_sent, hp]
          by_cases hk : k = (dst, tag)
          · subst hk
            simp [Function.update_same, h0]
          · simp only [Function.update_noteq hk]
            exact ih k
      | cons m rest =>
          simp only [handle_packet_sent, hp]
          by_cases hk : k = (dst, tag)
          · subst hk
            simp [Function.update_same, hbusy, h0]
          · simp only [Function.update_noteq hk]
            exact ih k
  | @recv s0 delay src tag msg _ ih =>
      exact ih

/-- C3: for every reachable state of the send serializer and every
(dst, tag) key, at most one send is in flight at the network backend;
sim_send forwards immediately exactly when the delay is zero and no send is
outstanding on the key (marking the channel busy and leaving every queue
unchanged), and otherwise appends the message to that key's pending queue
only; a PacketSent completion pops and forwards exactly the head of that
key's queue when one exists and otherwise marks the channel free; and
sim_recv never touches the serialization state. -/
theorem C3_send_serialization :
    (∀ (s : SendState), SendReachable s → ∀ dst tag : Nat,
      s.backend_inflight (dst, tag) ≤ 1) ∧
    (∀ (s : SendState) (delay dst tag msg : Nat),
      (delay = 0 → s.is_there_pending_sends (dst, tag) = false →
        (sim_send s delay dst tag msg).2 = [.backend_send dst tag msg] ∧
        (sim_send s delay dst tag msg).1.is_there_pending_sends (dst, tag) = true ∧
        (sim_send s delay dst tag msg).1.pending_sends = s.pending_sends) ∧
      (¬ (delay = 0 ∧ s.is_there_pending_sends (dst, tag) = false) →
        (sim_send s delay dst tag msg).2 = [] ∧
        (sim_send s delay dst tag msg).1.pending_sends (dst, tag)
          = s.pending_sends (dst, tag) ++ [msg] ∧
        (∀ k, k ≠ (dst, tag) →
          (sim_send s delay dst tag msg).1.pending_sends k = s.pending_sends k) ∧
        (sim_send s delay dst tag msg).1.is_there_pending_sends
          = s.is_there_pending_sends)) ∧
    (∀ (s : SendState) (dst tag : Nat),
      (s.pending_sends (dst, tag) = [] →
        (handle_packet_sent s dst tag).2 = [] ∧
        (handle_packet_sent s dst tag).1.is_there_pending_sends (dst, tag)
          = false) ∧
      (∀ m rest, s.pending_sends (dst, tag) = m :: rest →
        (handle_packet_sent s dst tag).2 = [.backend_send dst tag m] ∧
        (handle_packet_sent s dst tag).1.pending_sends (dst, tag) = rest ∧
        (handle_packet_sent s dst tag).1.is_there_pending_sends
          = s.is_there_pending_sends)) ∧
    (∀ (s : SendState) (delay src tag msg : Nat),
      (sim_recv s delay src tag msg).1 = s) := by
  refine ⟨?_, ?_, ?_, ?_⟩
  · intro s hs dst tag
    have h := send_inv_of_reachable hs (dst, tag)
    rw [h]
    split <;> omega
  · intro s delay dst tag msg
    constructor
    · intro hd hb
      have hcond : delay = 0 ∧ ¬ s.is_there_pending_sends (dst, tag) := by
        simp [hd, hb]
      simp [sim_send, hcond, Function.update_same]
    · intro hcond
      refine ⟨?_, ?_, ?_, ?_⟩ <;>
        simp [sim_send, hcond, Function.update_same]
      intro k hk hne
      have hne2 : (k, hk) ≠ (dst, tag) := by
        simp only [ne_eq, Prod.mk.injEq, not_and]
        intro h1
        exact hne h1
      rw [Function.update_noteq hne2]
  · intro s dst tag
    constructor
    · intro hp
      simp [handle_packet_sent, hp, Function.update_same]
    · intro m rest hp
      simp [handle_packet_sent, hp, Function.update_same]
  · intro s delay src tag msg
    rfl

/-- C3 witness (spec scenario 5): two back-to-back zero-delay sends from
one node on (dst, tag) = (3, 7): the first forwards immediately, the second
is queued, at most one send is in flight, and the PacketSent completion
dequeues and forwards the second. -/
theorem C3_witness :
    (sim_send (sim_send send_init 0 3 7 11).1 0 3 7 12).1.backend_inflight
        (3, 7) ≤ 1 ∧
    (sim_send send_init 0 3 7 11).2 = [.backend_send 3 7 11] ∧
    (sim_send (sim_send send_init 0 3 7 11).1 0 3 7 12).2 = [] ∧
    (sim_send (sim_send send_init 0 3 7 11).1 0 3 7 12).1.pending_sends (3, 7)
      = [12] ∧
    (handle_packet_sent
        (sim_send (sim_send send_init 0 3 7 11).1 0 3 7 12).1 3 7).2
      = [.backend_send 3 7 12] := by
  refine ⟨?_, ?_, ?_, ?_, ?_⟩
  · exact C3_send_serialization.1 _
      (SendReachable.send 0 3 7 12 (SendReachable.send 0 3 7 11 SendReachable.init)) 3 7
  · rfl
  · rfl
  · rfl
  · rfl

/-- Forward_In_BackPass with an unserved positive compute delay: the delay
is loaded, a Workload_Wait event is registered and the counter is cleared
by try_register_event. -/
theorem fib_load_wait_step (env : WEnv) (w : Workload)
    (hst : w.current_state = .Forward_In_BackPass)
    (hidx : 0 ≤ w.index) (hlt : w.index < (w.layers.length : Int))
    (hwg : env.wg_comm_finished w.index.toNat = true)
    (hdl : w.delay_loaded = false)
    (hpos : 0 < fwdComputeAt w.layers w.index.toNat) :
    fwd_in_bckwd_step env w =
      .ok { w with counter := 0, delay_loaded := true }
        [.workload_wait (fwdComputeAt w.layers w.index.toNat)] := by
  have hn : w.index.toNat < w.layers.length := by omega
  have hL := List.get?_eq_get hn
  have hcp : fwdComputeAt w.layers w.index.toNat
      = (w.layers.get ⟨w.index.toNat, hn⟩).fwd_pass_compute := by
    rw [fwdComputeAt, hL]; rfl
  rw [hcp] at hpos ⊢
  simp only [fwd_in_bckwd_step, hL, hst, hwg, hdl]
  rw [if_neg (not_not_intro ⟨hidx, hlt⟩)]
  simp [hpos]
  intro h
  simp_all

/-- Forward_In_BackPass with zero compute and no collective yet: the
forward collective of the current layer goes out (policy None, barrier
Blocking, stored byte count). -/
theorem fib_issue_step0 (env : WEnv) (w : Workload)
    (hst : w.current_state = .Forward_In_BackPass)
    (hidx : 0 ≤ w.index) (hlt : w.index < (w.layers.length : Int))
    (hwg : env.wg_comm_finished w.index.toNat = true)
    (hdl : w.delay_loaded = false)
    (hzero : fwdComputeAt w.layers w.index.toNat = 0)
    (hci : w.collective_issued = false) :
    fwd_in_bckwd_step env w =
      .ok { w with counter := 0, delay_loaded := true,
                   collective_issued := true }
        [.issue_fwd_comm w.index.toNat SchedulingPolicy.None .Blocking
          (fwdSizeAt w.layers w.index.toNat)] := by
  have hn : w.index.toNat < w.layers.length := by omega
  have hL := List.get?_eq_get hn
  have hcp : (w.layers.get ⟨w.index.toNat, hn⟩).fwd_pass_compute = 0 := by
    rw [fwdComputeAt, hL] at hzero; simpa using hzero
  have hsz : fwdSizeAt w.layers w.index.toNat
      = (w.layers.get ⟨w.index.toNat, hn⟩).fwd_pass_comm_size := by
    rw [fwdSizeAt, hL]; rfl
  rw [hsz]
  simp only [fwd_in_bckwd_step, hL, hst, hwg, hdl, hci, hcp]
  rw [if_neg (not_not_intro ⟨hidx, hlt⟩)]
  simp

/-- Forward_In_BackPass with the delay already served and no collective
yet: the forward collective of the current layer goes out. -/
theorem fib_issue_step1 (env : WEnv) (w : Workload)
    (hst : w.current_state = .Forward_In_BackPass)
    (hidx : 0 ≤ w.index) (hlt : w.index < (w.layers.length : Int))
    (hwg : env.wg_comm_finished w.index.toNat = true)
    (hdl : w.delay_loaded = true) (hcnt : w.counter = 0)
    (hci : w.collective_issued = false) :
    fwd_in_bckwd_step env w =
      .ok { w with counter := 0, delay_loaded := true,
                   collective_issued := true }
        [.issue_fwd_comm w.index.toNat SchedulingPolicy.None .Blocking
          (fwdSizeAt w.layers w.index.toNat)] := by
  have hn : w.index.toNat < w.layers.length := by omega
  have hL := List.get?_eq_get hn
  have hsz : fwdSizeAt w.layers w.index.toNat
      = (w.layers.get ⟨w.index.toNat, hn⟩).fwd_pass_comm_size := by
    rw [fwdSizeAt, hL]; rfl
  rw [hsz]
  simp only [fwd_in_bckwd_step, hL, hst, hwg, hdl, hci, hcnt]
  rw [if_neg (not_not_intro ⟨hidx, hlt⟩)]
  simp

/-- Forward_In_BackPass advancement: after the collective completes the
index moves up, and the state exits to Input_Gradient exactly when the
layer now reached carries needs_fwd_in_bckwd_initiation (the exit check
runs after the increment, so the forward pass of that layer itself is not
executed in this mode). -/
theorem fib_advance_step (env : WEnv) (w : Workload)
    (hst : w.current_state = .Forward_In_BackPass)
    (hidx : 0 ≤ w.index) (hlt2 : w.index + 1 < (w.layers.length : Int))
    (hwg : env.wg_comm_finished w.index.toNat = true)
    (hdl : w.delay_loaded = true) (hcnt : w.counter = 0)
    (hci : w.collective_issued = true) :
    fwd_in_bckwd_step env w =
      (if needsAt w.layers (w.index.toNat + 1) then
        .ok { w with index := w.index + 1, counter := 0,
                     delay_loaded := false, collective_issued := false,
                     current_state := .Input_Gradient } [.register_general]
      else
        .ok { w with index := w.index + 1, counter := 0,
                     delay_loaded := false, collective_issued := false }
          [.register_general]) := by
  have hn : w.index.toNat < w.layers.length := by omega
  have hn2 : (w.index + 1).toNat < w.layers.length := by omega
  have hL := List.get?_eq_get hn
  have hL2 := List.get?_eq_get hn2
  have htn : (w.index + 1).toNat = w.index.toNat + 1 := by omega
  have hneed : needsAt w.layers (w.index.toNat + 1)
      = (w.layers.get ⟨(w.index + 1).toNat, hn2⟩).needs_fwd_in_bckwd_initiation := by
    rw [needsAt, ← htn, hL2]; rfl
  simp only [fwd_in_bckwd_step, hL, hst, hwg, hdl, hci, hcnt, hL2, hneed]
  rw [if_neg (not_not_intro ⟨hidx, by omega⟩)]
  simp only [Bool.not_true, not_true_eq_false, not_false_eq_true, if_true,
    if_false, gt_iff_lt, lt_self_iff_false, ite_false, ite_true]
  split
  · simp_all
  · simp_all

/-- Splitting a bounded run of the FSM at an intermediate invocation
count. -/
theorem run_fsm_add (env : WEnv) (a b : Nat) :
    ∀ (w : Workload), run_fsm env (a + b) w
      = (run_fsm env a w).bind (fun p =>
          (run_fsm env b p.1).map (fun q => (q.1, p.2 ++ q.2))) := by
  induction a with
  | zero =>
      intro w
      simp [run_fsm]
  | succ a ih =>
      intro w
      have hshift : a + 1 + b = (a + b) + 1 := by omega
      rw [hshift]
      cases hstep : fwd_in_bckwd_step env w with
      | ok w1 acts =>
          simp only [run_fsm, hstep]
          rw [ih w1]
          cases h1 : run_fsm env a w1 with
          | none => rfl
          | some p =>
              cases h2 : run_fsm env b p.1 with
              | none => simp [h2]
              | some q => simp [h2]
      | assert_violation => simp [run_fsm, hstep]
      | oob_read => simp [run_fsm, hstep]

/-- The backward scan finds exactly the nearest checkpoint at or below the
start layer. -/
theorem scan_checkpoint_eq (layers : List Layer) :
    ∀ (t c : Nat), c ≤ t → checkpointAt layers c = true →
      (∀ j, c < j → j ≤ t → checkpointAt layers j = false) →
      scan_checkpoint layers t = some c
  | 0, c, hc, hck, _ => by
      obtain rfl : c = 0 := by omega
      simp [scan_checkpoint, hck]
  | t + 1, c, hc, hck, hno => by
      by_cases hct : c = t + 1
      · subst hct
        simp [scan_checkpoint, hck]
      · have h1 : checkpointAt layers (t + 1) = false :=
          hno (t + 1) (by omega) le_rfl
        have ih := scan_checkpoint_eq layers t c (by omega) hck
          (fun j hj1 hj2 => hno j hj1 (by omega))
        simp [scan_checkpoint, h1, ih]

/-- The recompute trigger of Input_Gradient: when the current layer has
needs_fwd_in_bckwd_initiation set and no recomputation is initiated, the
FSM rewinds to the checkpoint found by the backward scan and enters
Forward_In_BackPass with checkpoint_initiated set. -/
theorem ig_trigger_step (env : WEnv) (w : Workload) (c : Nat)
    (hst : w.current_state = .Input_Gradient)
    (hidx : 0 ≤ w.index) (hlt : w.index < (w.layers.length : Int))
    (hneed : needsAt w.layers w.index.toNat = true)
    (hci : w.checkpoint_initiated = false)
    (hscan : scan_checkpoint w.layers w.index.toNat = some c) :
    fwd_in_bckwd_step env w =
      .ok { w with index := (c : Int),
                   current_state := .Forward_In_BackPass,
                   checkpoint_initiated := true }
        [.register_general, .log_fwd_in_bckwd c w.index.toNat] := by
  have hn : w.index.toNat < w.layers.length := by omega
  have hL := List.get?_eq_get hn
  have hneed2 : (w.layers.get
      ⟨w.index.toNat, hn⟩).needs_fwd_in_bckwd_initiation = true := by
    rw [needsAt, hL] at hneed
    simpa using hneed
  simp only [fwd_in_bckwd_step, hL, hst, hci, hneed2, hscan]
  rw [if_neg (not_not_intro ⟨hidx, hlt⟩)]
  simp

/-- One full Forward_In_BackPass layer (two or three invocations depending
on the compute delay): exactly one forward collective goes out, for the
current layer, and the FSM stands at the next layer, in Input_Gradient
exactly when that next layer is a trigger layer. -/
theorem fib_advance (env : WEnv) (lay : List Layer) (i ctr pc : Nat)
    (hwg : ∀ j, env.wg_comm_finished j = true)
    (hn1 : i + 1 < lay.length) :
    ∃ k acts, run_fsm env k (fib_state lay i ctr pc)
      = some ((if needsAt lay (i + 1) then
                { fib_state lay (i + 1) 0 pc with
                    current_state := LoopState.Input_Gradient }
               else fib_state lay (i + 1) 0 pc), acts) ∧
      fwd_issued_layers acts = [i] := by
  have hidx : (0 : Int) ≤ (fib_state lay i ctr pc).index :=
    Int.natCast_nonneg i
  have hlt : (fib_state lay i ctr pc).index < (lay.length : Int) := by
    show (i : Int) < (lay.length : Int)
    exact_mod_cast Nat.lt_of_succ_lt hn1
  have hlt2 : (fib_state lay i ctr pc).index + 1 < (lay.length : Int) := by
    show (i : Int) + 1 < (lay.length : Int)
    exact_mod_cast hn1
  cases hcomp : fwdComputeAt lay i with
  | zero =>
      have hs1 := fib_issue_step0 env (fib_state lay i ctr pc) rfl hidx hlt
        (hwg i) rfl hcomp rfl
      have hs2 := fib_advance_step env
        ⟨lay, .Forward_In_BackPass, (i : Int), pc, 0, true, true, true⟩
        rfl hidx hlt2 (hwg i) rfl rfl rfl
      dsimp only [fib_state, Int.toNat_natCast] at hs1 hs2
      cases hneed : needsAt lay (i + 1) with
      | true =>
          rw [hneed] at hs2
          refine ⟨2, [.issue_fwd_comm i SchedulingPolicy.None .Blocking
            (fwdSizeAt lay i), .register_general], ?_, rfl⟩
          dsimp only [fib_state]
          simp only [run_fsm, hs1, hs2]
          simp [hneed]
      | false =>
          rw [hneed] at hs2
          refine ⟨2, [.issue_fwd_comm i SchedulingPolicy.None .Blocking
            (fwdSizeAt lay i), .register_general], ?_, rfl⟩
          dsimp only [fib_state]
          simp only [run_fsm, hs1, hs2]
          simp [hneed]
  | succ k0 =>
      have hs0 := fib_load_wait_step env (fib_state lay i ctr pc) rfl hidx hlt
        (hwg i) rfl (by dsimp only [fib_state, Int.toNat_natCast]; rw [hcomp]; omega)
      have hs1 := fib_issue_step1 env
        ⟨lay, .Forward_In_BackPass, (i : Int), pc, 0, true, false, true⟩
        rfl hidx hlt (hwg i) rfl rfl rfl
      have hs2 := fib_advance_step env
        ⟨lay, .Forward_In_BackPass, (i : Int), pc, 0, true, true, true⟩
        rfl hidx hlt2 (hwg i) rfl rfl rfl
      dsimp only [fib_state, Int.toNat_natCast] at hs0 hs1 hs2
      rw [hcomp] at hs0
      cases hneed : needsAt lay (i + 1) with
      | true =>
          rw [hneed] at hs2
          refine ⟨3, [.workload_wait (k0 + 1),
            .issue_fwd_comm i SchedulingPolicy.None .Blocking
              (fwdSizeAt lay i), .register_general], ?_, rfl⟩
          dsimp only [fib_state]
          simp only [run_fsm, hs0, hs1, hs2]
          simp [hneed]
      | false =>
          rw [hneed] at hs2
          refine ⟨3, [.workload_wait (k0 + 1),
            .issue_fwd_comm i SchedulingPolicy.None .Blocking
              (fwdSizeAt lay i), .register_general], ?_, rfl⟩
          dsimp only [fib_state]
          simp only [run_fsm, hs0, hs1, hs2]
          simp [hneed]

/-- Forward-pass issuance is compositional over action lists. -/
theorem fwd_issued_append (a b : List WAction) :
    fwd_issued_layers (a ++ b)
      = fwd_issued_layers a ++ fwd_issued_layers b := by
  simp [fwd_issued_layers]

/-- A whole Forward_In_BackPass segment from layer i up to the trigger
layer t: the recomputation issues forward collectives for layers
i, i+1, ..., t-1 in order and then resumes Input_Gradient at layer t with
checkpoint_initiated still set. -/
theorem fib_segment (env : WEnv) (lay : List Layer) (t : Nat)
    (hwg : ∀ j, env.wg_comm_finished j = true)
    (ht : t < lay.length) (htrig : needsAt lay t = true) :
    ∀ (d i ctr pc : Nat), i + d + 1 = t →
      (∀ j, i < j → j < t → needsAt lay j = false) →
      ∃ k acts, run_fsm env k (fib_state lay i ctr pc)
        = some (⟨lay, .Input_Gradient, (t : Int), pc, 0, false, false, true⟩,
            acts) ∧
        fwd_issued_layers acts = List.range' i (d + 1) := by
  intro d
  induction d with
  | zero =>
      intro i ctr pc hit hno
      have ht1 : i + 1 = t := by omega
      obtain ⟨k, acts, hrun, hiss⟩ := fib_advance env lay i ctr pc hwg
        (by omega)
      rw [ht1, htrig] at hrun
      rw [if_pos rfl] at hrun
      refine ⟨k, acts, ?_, ?_⟩
      · rw [hrun]
        rfl
      · rw [hiss]
        rfl

  | succ d ih =>
      intro i ctr pc hit hno
      obtain ⟨k1, acts1, hrun1, hiss1⟩ := fib_advance env lay i ctr pc hwg
        (by omega)
      have hneed : needsAt lay (i + 1) = false := hno (i + 1) (by omega)
        (by omega)
      rw [hneed] at hrun1
      rw [if_neg (by simp)] at hrun1
      obtain ⟨k2, acts2, hrun2, hiss2⟩ := ih (i + 1) 0 pc (by omega)
        (fun j h1 h2 => hno j (by omega) h2)
      refine ⟨k1 + k2, acts1 ++ acts2, ?_, ?_⟩
      · rw [run_fsm_add env k1 k2, hrun1]
        simp only [Option.some_bind]
        rw [hrun2]
        rfl
      · rw [fwd_issued_append, hiss1, hiss2]
        rfl

/-- C4 (amended): entering Input_Gradient at a trigger layer t with no
recomputation initiated, the FSM scans backward to the nearest checkpoint
layer c, switches to Forward_In_BackPass at c, executes a forward pass for
every layer from c up to t-1 — but not for the trigger layer t itself,
whose exit check runs before its forward pass — and then resumes
Input_Gradient at t with checkpoint_initiated preventing an immediate
re-trigger.  (The original claim includes layer t in the recomputed
range.) -/
theorem C4_checkpoint_recompute (env : WEnv) (lay : List Layer)
    (t c ctr pc : Nat)
    (hwg : ∀ j, env.wg_comm_finished j = true)
    (hct : c < t) (ht : t < lay.length)
    (hc : checkpointAt lay c = true)
    (hnoc : ∀ j, c < j → j ≤ t → checkpointAt lay j = false)
    (hnot : ∀ j, c < j → j < t → needsAt lay j = false)
    (htrig : needsAt lay t = true) :
    scan_checkpoint lay t = some c ∧
    fwd_in_bckwd_step env
        ⟨lay, .Input_Gradient, (t : Int), pc, ctr, false, false, false⟩
      = .ok (fib_state lay c ctr pc)
          [.register_general, .log_fwd_in_bckwd c t] ∧
    ∃ k acts,
      run_fsm env k ⟨lay, .Input_Gradient, (t : Int), pc, ctr, false, false,
          false⟩
        = some (⟨lay, .Input_Gradient, (t : Int), pc, 0, false, false, true⟩,
            acts) ∧
      fwd_issued_layers acts = List.range' c (t - c) := by
  have hscan : scan_checkpoint lay t = some c :=
    scan_checkpoint_eq lay t c (le_of_lt hct) hc hnoc
  have hs1 : fwd_in_bckwd_step env
      ⟨lay, .Input_Gradient, (t : Int), pc, ctr, false, false, false⟩
      = .ok (fib_state lay c ctr pc)
          [.register_general, .log_fwd_in_bckwd c t] := by
    have h := ig_trigger_step env
      ⟨lay, .Input_Gradient, (t : Int), pc, ctr, false, false, false⟩ c
      rfl (Int.natCast_nonneg t)
      (show (t : Int) < ((lay.length : Nat) : Int) by exact_mod_cast ht)
      (by simpa using htrig) rfl (by simpa using hscan)
    simpa [fib_state] using h
  refine ⟨hscan, hs1, ?_⟩
  obtain ⟨k2, acts2, hrun2, hiss2⟩ := fib_segment env lay t hwg ht htrig
    (t - c - 1) c ctr pc (by omega) (fun j h1 h2 => hnot j h1 h2)
  refine ⟨1 + k2, [WAction.register_general,
    WAction.log_fwd_in_bckwd c t] ++ acts2, ?_, ?_⟩
  · rw [run_fsm_add env 1 k2]
    have h1 : run_fsm env 1
        ⟨lay, .Input_Gradient, (t : Int), pc, ctr, false, false, false⟩
        = some (fib_state lay c ctr pc,
            [WAction.register_general, WAction.log_fwd_in_bckwd c t]) := by
      simp [run_fsm, hs1]
    rw [h1]
    simp only [Option.some_bind]
    rw [hrun2]
    rfl
  · rw [fwd_issued_append, hiss2]
    have : t - c - 1 + 1 = t - c := by omega
    rw [this]
    rfl

/-- C4 counterexample: checkpoint at layer 0, trigger at layer 1.  From
Input_Gradient at layer 1 the FSM rewinds to layer 0, recomputes the
forward pass of layer 0 only, and resumes Input_Gradient at layer 1: the
forward-pass collective of the trigger layer 1 is never issued during the
recomputation, contradicting the claim that the forward pass runs for
every layer from the checkpoint up to the trigger layer. -/
theorem C4_counterexample_trigger_layer_skipped :
    run_fsm env_all 3
        ⟨[layer_ck, layer_tr], .Input_Gradient, 1, 0, 0, false, false, false⟩
      = some (⟨[layer_ck, layer_tr], .Input_Gradient, 1, 0, 0,
            false, false, true⟩,
          [.register_general, .log_fwd_in_bckwd 0 1,
           .issue_fwd_comm 0 SchedulingPolicy.None .Blocking 100,
           .register_general]) ∧
    (1 : Nat) ∉ fwd_issued_layers
        [.register_general, .log_fwd_in_bckwd 0 1,
         .issue_fwd_comm 0 SchedulingPolicy.None .Blocking 100,
         .register_general] := by
  exact ⟨rfl, by decide⟩

/-- C4 witness: checkpoint at layer 0, plain layer 1, trigger at layer 2:
the scan finds checkpoint 0 and the recomputation issues forward passes
for layers 0 and 1 before resuming Input_Gradient at layer 2. -/
theorem C4_witness :
    scan_checkpoint [layer_ck, layer_pl, layer_tr] 2 = some 0 ∧
    ∃ k acts,
      run_fsm env_all k ⟨[layer_ck, layer_pl, layer_tr], .Input_Gradient, 2,
          0, 0, false, false, false⟩
        = some (⟨[layer_ck, layer_pl, layer_tr], .Input_Gradient, 2, 0, 0,
            false, false, true⟩, acts) ∧
      fwd_issued_layers acts = [0, 1] := by
  have h := C4_checkpoint_recompute env_all [layer_ck, layer_pl, layer_tr]
    2 0 0 0 (fun j => rfl) (by omega) (by decide) (by decide)
    (by intro j h1 h2; interval_cases j <;> decide)
    (by intro j h1 h2; interval_cases j; decide)
    (by decide)
  obtain ⟨hsc, hstep, k, acts, hrun, hiss⟩ := h
  exact ⟨hsc, k, acts, hrun, by rw [hiss]; rfl⟩

end SimAI
